import Mathlib

/-!
Verification of the core logic of napari-3d-counter: the cell-type
configuration resolver (`celltype_config.py`), the `Count3D` counting-session
state machine (`_widget.py`), the CSV export/import round trip, and the
geometry helpers (`aux_functions.py`).  The Python code is shallowly embedded:
layers become lists of integer coordinates, pandas tables become lists of
rows, numpy volumes become nested lists, and the napari coordinate transforms
and hit tests (external collaborators) become explicit function parameters.
Python floats occur only as inert scalars compared for equality, so they are
embedded as rationals.
-/

namespace N3C

/-- Decidable equality for `Except`, so that concrete runs of the embedded
fallible functions can be checked by `decide`. -/
instance instDecEqExcept {ε α : Type} [DecidableEq ε] [DecidableEq α] :
    DecidableEq (Except ε α) := fun x y =>
  match x, y with
  | Except.error a, Except.error b =>
    if h : a = b then isTrue (congrArg Except.error h)
    else isFalse (fun hc => h (Except.error.inj hc))
  | Except.error _, Except.ok _ => isFalse (fun hc => Except.noConfusion hc)
  | Except.ok _, Except.error _ => isFalse (fun hc => Except.noConfusion hc)
  | Except.ok a, Except.ok b =>
    if h : a = b then isTrue (congrArg Except.ok h)
    else isFalse (fun hc => h (Except.ok.inj hc))

/-! ### Decimal rendering of naturals (Python f-string interpolation of `n`) -/

/-- `'0' + d` for a decimal digit `d`. -/
def digitChar (d : Nat) : Char := Char.ofNat (48 + d)

/-- Little-endian decimal digits of `n`, with explicit fuel for structural
recursion; `natDigitsLE n n` gives the digits of `n`. -/
def natDigitsLE : Nat → Nat → List Nat
  | 0, _ => []
  | _ + 1, 0 => []
  | fuel + 1, n + 1 => ((n + 1) % 10) :: natDigitsLE fuel ((n + 1) / 10)

/-- Decimal rendering of a natural number, as Python's `str(n)`. -/
def natRepr (n : Nat) : String :=
  if n = 0 then ("0") else String.mk (((natDigitsLE n n).map digitChar).reverse)

/-- Value of a little-endian digit list (left inverse of `natDigitsLE`). -/
def valLE : List Nat → Nat
  | [] => 0
  | d :: ds => d + 10 * valLE ds

/-- Reads a decimal string back into a number (left inverse of `natRepr`,
used to prove `natRepr` injective). -/
def strVal (s : String) : Nat :=
  valLE (s.data.reverse.map (fun ch => ch.toNat - 48))

/-! ### `celltype_config.py` -/

/-- Failure modes of the config resolver: the uncaught `IndexError` from
`default_list[-1]` on an empty list in `fill_in_defaults`, and the
`ValueError` ("ConfigError") raised for inconsistent out-of-slice sizes. -/
inductive CfgErr where
  | indexError
  | valueError (msg : String)
deriving DecidableEq

/-- `CellTypeConfig` (request): all fields optional, absence means default. -/
structure CellTypeConfig where
  name : Option String := none
  color : Option String := none
  keybind : Option String := none
  outline_size : Option Rat := none
  out_of_slice_point_size : Option Rat := none
  face_color : Option String := none
  symbol : Option String := none
  edge_width : Option Rat := none
deriving DecidableEq

/-- `CellTypeConfigNotOptional`: fully resolved configuration. -/
structure CellTypeConfigNotOptional where
  name : String
  color : String
  keybind : String
  outline_size : Rat
  out_of_slice_point_size : Rat
  face_color : String
  symbol : String
  edge_width : Rat
deriving DecidableEq

def DEFAULT_KEYMAP_SEQUENCE : List String := ["q", "w", "e", "r", "t", "y", ""]

def DEFAULT_COLOR_SEQUENCE : List String :=
  ["#ffff00ff", "#ff0000ff", "#00ffffff", "#0000ffff", "#ff00ffff", "#00ff00ff",
   "#ffffffff"]

def DEFAULT_OUTLINE_SIZE : Rat := 10

def DEFAULT_OUT_OF_SLICE_SIZE : Rat := 2

def DEFAULT_FACE_COLOR : String := "#ffffff00"

def DEFAULT_SYMBOL : String := "o"

/-- `0.05`, written as a literal rational so that it evaluates structurally. -/
def DEFAULT_EDGE_WIDTH : Rat := ⟨1, 20, by decide, Nat.gcd_one_left 20⟩

/-- The fill loop of `fill_in_defaults`: each `None` request pops the next
default off the front of the list, explicit requests pass through. -/
def fill_go : List (Option String) → List String → List String
  | [], _ => []
  | some r :: rest, dl => r :: fill_go rest dl
  | none :: rest, [] => fill_go rest []
  | none :: rest, d :: dl => d :: fill_go rest dl

/-- The `default_list` of `fill_in_defaults`: the defaults with every value
already requested explicitly discarded. -/
def remaining_defaults (requests : List (Option String)) (defaults : List String) :
    List String :=
  let used_defaults := defaults.filter (fun d => decide (some d ∈ requests))
  defaults.filter (fun d => decide (d ∉ used_defaults))

/-- `fill_in_defaults(requests, defaults)`: defaults already requested
explicitly are discarded, the remaining default list is padded by repeating
its last entry (`default_list[-1]` raises `IndexError` when that list is
empty), then `None` entries are filled from the front. -/
def fill_in_defaults (requests : List (Option String)) (defaults : List String) :
    Except CfgErr (List String) :=
  match (remaining_defaults requests defaults).getLast? with
  | none => Except.error CfgErr.indexError
  | some last =>
    Except.ok (fill_go requests
      (remaining_defaults requests defaults ++ List.replicate requests.length last))

/-- Named-color table used by the model of `matplotlib.colors.to_hex`. -/
def MATPLOTLIB_NAMED_COLORS : List (String × String) :=
  [("y", "#ffff00ff"), ("r", "#ff0000ff"), ("c", "#00ffffff"), ("b", "#0000ffff"),
   ("m", "#ff00ffff"), ("g", "#00ff00ff"), ("w", "#ffffffff"), ("k", "#000000ff")]

/-- Whether a string already is an 8-hex-digit RGBA color string (a `#`
followed by eight hex digits). -/
def is_hex8 (c : String) : Bool := c.length == 9 && (c.data.headD ('x') == ('#'))

/-- `resolve_color`: models the external `matplotlib.colors.to_hex(color,
keep_alpha=True)` call, which normalizes a color to 8-hex-digit RGBA form;
already-normalized strings pass through unchanged and single-letter color
names are looked up in a fixed table. -/
def resolve_color (c : String) : String :=
  if is_hex8 c then c
  else
    match MATPLOTLIB_NAMED_COLORS.lookup c with
    | some h => h
    | none => c

/-- Default name for the slot at 0-based index `n`: `"Celltype {n+1}"`. -/
def default_name (n : Nat) : String := ("Celltype ") ++ natRepr (n + 1)

/-- `f"{name} [{k}]"`, the conflict-resolution suffix for duplicate names. -/
def append_index (name : String) (k : Nat) : String :=
  name ++ (" [") ++ natRepr k ++ ("]")

/-- The `while f"{name} [{name_int}]" in unique_names` search, with fuel:
returns the first `k ≥ start` whose suffixed name is not yet taken. -/
def find_int (name : String) (acc : List String) : Nat → Nat → Nat
  | 0, k => k
  | fuel + 1, k =>
    if append_index name k ∈ acc then find_int name acc fuel (k + 1) else k

/-- The duplicate-name resolution loop of `process_cell_type_config`. -/
def uniquify_go : List String → List String → List String
  | acc, [] => acc
  | acc, name :: rest =>
    if name ∈ acc then
      uniquify_go (acc ++ [append_index name (find_int name acc (acc.length + 1) 1)]) rest
    else uniquify_go (acc ++ [name]) rest

/-- Resolve duplicate names by appending `" [n]"` with the smallest fresh `n`. -/
def uniquify (names : List String) : List String := uniquify_go [] names

/-- The final `zip` of `process_cell_type_config`, building the resolved
configs from the eight per-field lists (truncating like Python `zip`). -/
def zip_configs : List String → List String → List String → List Rat → List Rat →
    List String → List String → List Rat → List CellTypeConfigNotOptional
  | kb :: ks, nm :: ns, co :: cs, o :: os, s :: ss, sym :: syms, f :: fs, e :: es =>
    ⟨nm, co, kb, o, s, f, sym, e⟩ :: zip_configs ks ns cs os ss syms fs es
  | _, _, _, _, _, _, _, _ => []

/-- The `request_color_list` of `process_cell_type_config`: requested colors
normalized, absent colors left `None`. -/
def color_requests (cell_type_configs : List CellTypeConfig) : List (Option String) :=
  cell_type_configs.map (fun c => c.color.map resolve_color)

/-- The keybind request list of `process_cell_type_config`. -/
def keybind_requests (cell_type_configs : List CellTypeConfig) : List (Option String) :=
  cell_type_configs.map (fun c => c.keybind)

/-- The `names` list of `process_cell_type_config`: explicit names, with
`"Celltype {i+1}"` filled in for absent ones. -/
def requested_names (cell_type_configs : List CellTypeConfig) : List String :=
  let default_names := (List.range cell_type_configs.length).map (fun n => default_name n)
  (default_names.zip cell_type_configs).map
    (fun p => match p.2.name with | none => p.1 | some nm => nm)

/-- The per-request out-of-slice point sizes after defaulting. -/
def resolved_oos_sizes (cell_type_configs : List CellTypeConfig) : List Rat :=
  cell_type_configs.map (fun c => c.out_of_slice_point_size.getD DEFAULT_OUT_OF_SLICE_SIZE)

/-- The validation condition of `process_cell_type_config`:
`any(s != out_of_slice_sizes[0] for s in out_of_slice_sizes)`. -/
def sizes_disagree (cell_type_configs : List CellTypeConfig) : Bool :=
  (resolved_oos_sizes cell_type_configs).any
    (fun s => s != (resolved_oos_sizes cell_type_configs).headD DEFAULT_OUT_OF_SLICE_SIZE)

/-- `process_cell_type_config`: applies defaults to a list of requests,
resolving colors and keybinds against their default sequences, defaulting and
de-duplicating names, defaulting the scalar fields, and finally validating
that all out-of-slice point sizes agree. -/
def process_cell_type_config (cell_type_configs : List CellTypeConfig) :
    Except CfgErr (List CellTypeConfigNotOptional) :=
  match fill_in_defaults (color_requests cell_type_configs) DEFAULT_COLOR_SEQUENCE with
  | Except.error e => Except.error e
  | Except.ok colors =>
    match fill_in_defaults (keybind_requests cell_type_configs)
        DEFAULT_KEYMAP_SEQUENCE with
    | Except.error e => Except.error e
    | Except.ok keymaps =>
      let unique_names := uniquify (requested_names cell_type_configs)
      let outline_sizes := cell_type_configs.map
        (fun c => c.outline_size.getD DEFAULT_OUTLINE_SIZE)
      let symbols := cell_type_configs.map (fun c => c.symbol.getD DEFAULT_SYMBOL)
      let face_colors := cell_type_configs.map (fun c => c.face_color.getD DEFAULT_FACE_COLOR)
      let edge_widths := cell_type_configs.map (fun c => c.edge_width.getD DEFAULT_EDGE_WIDTH)
      if sizes_disagree cell_type_configs then
        Except.error (CfgErr.valueError ("All out of slice points sizes must be the same"))
      else
        Except.ok (zip_configs keymaps unique_names colors outline_sizes
          (resolved_oos_sizes cell_type_configs) symbols face_colors edge_widths)

/-- Turn a resolved config back into a request with every field given
explicitly (the `resolve(x)_as_requests` conversion of the spec). -/
def config_to_request (c : CellTypeConfigNotOptional) : CellTypeConfig :=
  ⟨some c.name, some c.color, some c.keybind, some c.outline_size,
   some c.out_of_slice_point_size, some c.face_color, some c.symbol, some c.edge_width⟩

/-- The resolved config a fully-specified request resolves to: every field is
its own (normalized) explicit value. -/
def config_value (c : CellTypeConfig) : CellTypeConfigNotOptional :=
  ⟨c.name.getD (""), resolve_color (c.color.getD ("")), c.keybind.getD (""),
   c.outline_size.getD DEFAULT_OUTLINE_SIZE,
   c.out_of_slice_point_size.getD DEFAULT_OUT_OF_SLICE_SIZE,
   c.face_color.getD DEFAULT_FACE_COLOR, c.symbol.getD DEFAULT_SYMBOL,
   c.edge_width.getD DEFAULT_EDGE_WIDTH⟩

/-- A request with every field explicitly given. -/
def fully_specified (c : CellTypeConfig) : Bool :=
  c.name.isSome && c.color.isSome && c.keybind.isSome && c.outline_size.isSome &&
    c.out_of_slice_point_size.isSome && c.face_color.isSome && c.symbol.isSome &&
    c.edge_width.isSome

/-- Pairwise distinct-or-empty: two equal entries are allowed only when they
are the empty string (no keybind). -/
def distinct_or_empty (l : List String) : Prop :=
  l.Pairwise (fun a b => a = b → a = "")

instance decDistinctOrEmpty (l : List String) : Decidable (distinct_or_empty l) :=
  List.instDecidablePairwise l

/-- `True` exactly when `process_cell_type_config` raised the configuration
error (`ValueError`), as opposed to succeeding or dying with `IndexError`. -/
def is_config_error (r : Except CfgErr (List CellTypeConfigNotOptional)) : Bool :=
  match r with
  | Except.error (CfgErr.valueError _) => true
  | _ => false

/-- The resolver's output for two empty requests (used as a concrete
instantiation in witnesses). -/
def c2_example_out : List CellTypeConfigNotOptional :=
  [⟨("Celltype 1"), ("#ffff00ff"), ("q"), 10, 2, ("#ffffff00"), ("o"), DEFAULT_EDGE_WIDTH⟩,
   ⟨("Celltype 2"), ("#ff0000ff"), ("w"), 10, 2, ("#ffffff00"), ("o"), DEFAULT_EDGE_WIDTH⟩]

/-! ### The `Count3D` counting session (`_widget.py`)

Layers are lists of 3-D integer coordinates; slots are indexed by position in
`cell_type_gui_and_data`.  The GUI lock exists only to suppress re-entrant
event handling, and the net effect of each operation (with the lock held where
the source holds it) is embedded directly. -/

abbrev Coord := Int × Int × Int

/-- The mutable state of a `Count3D` session that the claims mention: the
per-slot point layers, the transient pointer layer, the active-slot index
(`pointer_type_state`), the out-of-slice projection, the undo stack (stack of
slot indices, top at the end, as with Python `list.append`/`list.pop`), and
the active-state label (tracked as the index it displays). -/
structure Session where
  slots : List (List Coord)
  pointer : List Coord
  pointer_type_state : Nat
  out_of_slice_points : List (Int × Int)
  undo_stack : List Nat
  state_label : Nat
deriving DecidableEq

/-- `update_out_of_slice`: the projection is recomputed as the concatenation,
in slot order, of the last two coordinate components of every point. -/
def update_out_of_slice (s : Session) : Session :=
  { s with out_of_slice_points :=
      s.slots.flatMap (fun d => d.map (fun c => (c.2.1, c.2.2))) }

/-- The body of `handle_data_changed` when it is not suppressed: recompute the
out-of-slice projection and push the owning slot onto the undo stack. -/
def handle_data_changed_push (s : Session) (slot : Nat) : Session :=
  { update_out_of_slice s with undo_stack := s.undo_stack ++ [slot] }

/-- `new_pointer_point`: clear the pointer layer (under the lock), dispatch
the captured coordinate to the active slot's layer — the unlocked `add`
triggers `handle_data_changed`, which pushes the active slot onto the undo
stack — then perform the locked add/remove-selected no-op hack and recompute
the out-of-slice projection. -/
def new_pointer_point (s : Session) (coord : Coord) : Session :=
  let s1 := { s with pointer := [] }
  let s2 := handle_data_changed_push s1 s1.pointer_type_state
  let s3 := { s2 with
    slots := s2.slots.set s2.pointer_type_state
      ((s2.slots.getD s2.pointer_type_state []) ++ [coord]) }
  update_out_of_slice s3

/-- `undo`: on an empty stack, report "No previous changes" and change
nothing; otherwise pop the most recent slot, drop that layer's last
coordinate (under the lock), and recompute the out-of-slice projection.
The second component is the printed message, if any. -/
def undo (s : Session) : Session × Option String :=
  match s.undo_stack.getLast? with
  | none => (s, some ("No previous changes"))
  | some i =>
    let s1 := { s with undo_stack := s.undo_stack.dropLast }
    let s2 := { s1 with slots := s1.slots.set i ((s1.slots.getD i []).dropLast) }
    (update_out_of_slice s2, none)

/-- `change_state_to`: reassign `pointer_type_state` and refresh the
active-state label; nothing else. -/
def change_state_to (s : Session) (state : Nat) : Session :=
  { s with pointer_type_state := state, state_label := state }

/-- The operations quantified over in the undo-stack invariant. -/
inductive Op where
  | new_point (c : Coord)
  | undo_op
deriving DecidableEq

def step (s : Session) : Op → Session
  | Op.new_point c => new_pointer_point s c
  | Op.undo_op => (undo s).1

def run_session (s : Session) (ops : List Op) : Session := ops.foldl step s

/-- A session as built by `Count3D.__init__`: `m` slots, all layers empty,
empty undo stack, the active slot some index of the slot list. -/
def init_session (m active : Nat) : Session :=
  ⟨List.replicate m [], [], active, [], [], active⟩

/-- Total number of coordinates across all slots' point layers. -/
def total_points (s : Session) : Nat := (s.slots.map List.length).sum

/-- The inductive invariant of the session: undo-stack entries are valid slot
indices, the active slot is a valid index, and each slot's layer holds exactly
as many coordinates as the undo stack holds references to that slot. -/
def session_inv (s : Session) : Prop :=
  (∀ j ∈ s.undo_stack, j < s.slots.length) ∧
    s.pointer_type_state < s.slots.length ∧
    ∀ i, List.count i s.undo_stack = (s.slots.getD i []).length

/-! ### CSV export / import (`save_points_to_df` / `read_points_from_df`) -/

/-- One cell-type slot as the import/export path sees it: the layer name, the
layer data, and the live visual configuration `get_calculated_config` reads
back (kept as the request it would produce, minus name and out-of-slice size,
which are filled in at call time). -/
structure Slot where
  name : String
  data : List Coord
  config : CellTypeConfig
deriving DecidableEq

/-- A row of the points table: `cell_type` label and `(z, y, x)` coordinates. -/
abbrev Row := String × Coord

/-- `save_points_to_df`: concatenate, in slot order, each slot's coordinates
labeled with the slot's current layer name. -/
def save_points_to_df (slots : List Slot) : List Row :=
  slots.flatMap (fun ct => ct.data.map (fun c => (ct.name, c)))

/-- Insert into a `≤`-sorted list of strings. -/
def insert_sorted (x : String) : List String → List String
  | [] => [x]
  | y :: ys => if x < y then x :: y :: ys else y :: insert_sorted x ys

/-- `np.unique`: sorted list of the distinct values. -/
def np_unique (l : List String) : List String := l.dedup.foldr insert_sorted []

/-- `get_calculated_config`: the slot's live configuration as a request,
with its current layer name and the session-wide out-of-slice size. -/
def get_calculated_config (ct : Slot) (oos : Rat) : CellTypeConfig :=
  { ct.config with name := some ct.name, out_of_slice_point_size := some oos }

/-- All coordinates of rows labeled `layer_name`, in table order. -/
def table_points (data : List Row) (layer_name : String) : List Coord :=
  (data.filter (fun r => r.1 == layer_name)).map (fun r => r.2)

/-- Whether the (last) existing layer named `n` exists and is empty — the
condition under which `read_points_from_df` transfers data into it instead of
creating a new slot. -/
def empty_layer_named (slots : List Slot) (n : String) : Bool :=
  match slots.reverse.find? (fun ct => ct.name == n) with
  | some ct => ct.data.isEmpty
  | none => false

/-- `read_points_from_df`: labels naming an existing empty layer have their
rows transferred into that layer; for the remaining labels, new requests
(name only) are resolved together with every existing slot's live
configuration, and one new slot per remaining label is appended, carrying that
label's rows in table order. -/
def read_points_from_df (slots : List Slot) (oos : Rat) (data : List Row) :
    Except CfgErr (List Slot) :=
  let layer_names0 := np_unique (data.map (fun r => r.1))
  let layer_names := layer_names0.filter (fun n => !(empty_layer_named slots n))
  let slots1 := slots.map (fun ct =>
    if ct.name ∈ layer_names0 ∧ ct.data.isEmpty then
      { ct with data := table_points data ct.name }
    else ct)
  match process_cell_type_config
      (slots1.map (fun ct => get_calculated_config ct oos)
        ++ layer_names.map (fun n => { name := some n })) with
  | Except.error e => Except.error e
  | Except.ok initial_config =>
    let new_configs := initial_config.drop (initial_config.length - layer_names.length)
    let new_slots := (new_configs.zip layer_names).map
      (fun p => Slot.mk p.1.name (table_points data p.2) (config_to_request p.1))
    Except.ok (slots1 ++ new_slots)

/-! ### `aux_functions.py`: `_reconstruct_selected` -/

/-- A label volume, as a nested list (indexable z, y, x). -/
abbrev Vol := List (List (List Nat))

def vol_shape (v : Vol) : Nat × Nat × Nat :=
  (v.length, (v.headD []).length, ((v.headD []).headD []).length)

/-- Whether the nested list really is a cuboid matching `vol_shape`. -/
def cuboid (v : Vol) : Bool :=
  v.all (fun p => p.length == (v.headD []).length &&
    p.all (fun r => r.length == ((v.headD []).headD []).length))

/-- The source's out-of-bounds test: a coordinate strictly greater than the
corresponding extent on some axis (`coordinates > labels_data.shape`). -/
def coord_out_of_bounds (shape : Nat × Nat × Nat) (c : Coord) : Bool :=
  decide ((shape.1 : Int) < c.1) || decide ((shape.2.1 : Int) < c.2.1) ||
    decide ((shape.2.2 : Int) < c.2.2)

/-- One axis of numpy integer indexing: `0 ≤ i < n` indexes directly, negative
`i ≥ -n` wraps to `n + i`, anything else raises `IndexError` (`none`). -/
def np_axis_index {α : Type} (l : List α) (i : Int) : Option α :=
  if 0 ≤ i ∧ i < (l.length : Int) then l[i.toNat]?
  else if -(l.length : Int) ≤ i ∧ i < 0 then l[(i + l.length).toNat]?
  else none

/-- numpy indexing of the volume at an integer coordinate triple. -/
def np_index (v : Vol) (c : Coord) : Option Nat :=
  match np_axis_index v c.1 with
  | none => none
  | some plane =>
    match np_axis_index plane c.2.1 with
    | none => none
    | some row => np_axis_index row c.2.2

/-- `labels_data[tuple(coordinates.T)]`: the whole fancy-index fails if any
single coordinate does. -/
def index_all (v : Vol) : List Coord → Option (List Nat)
  | [] => some []
  | c :: rest =>
    match np_index v c, index_all v rest with
    | some l, some ls => some (l :: ls)
    | _, _ => none

/-- `_reconstruct_selected`, after the external world-to-data transform: the
input is the already-transformed, already-rounded integer coordinate list.
`Except.ok none` is the empty dict (`{}`) returned for an empty point list;
`Except.error` is an uncaught `IndexError` from the fancy indexing;
`Except.ok (some mask)` is the `add_image` payload with its `isin` mask
(values 255 and 0). -/
def reconstruct_selected_core (coords : List Coord) (v : Vol) :
    Except String (Option Vol) :=
  if coords.isEmpty then Except.ok none
  else
    let shape := vol_shape v
    let coords2 :=
      if coords.any (coord_out_of_bounds shape) then
        coords.filter (fun c => !(coord_out_of_bounds shape c))
      else coords
    match index_all v coords2 with
    | none => Except.error ("IndexError")
    | some labels =>
      let labels2 := if labels.contains 0 then labels.filter (fun x => !(x == 0)) else labels
      Except.ok (some (v.map (fun plane => plane.map (fun row =>
        row.map (fun x => if labels2.contains x then 255 else 0)))))

/-- Entry of a volume at a (non-negative) index triple. -/
def vol_at (v : Vol) (i j k : Nat) : Nat := ((v.getD i []).getD j []).getD k 0

/-- A coordinate that is a valid non-negative index into the volume. -/
def coord_in_range (shape : Nat × Nat × Nat) (c : Coord) : Bool :=
  decide (0 ≤ c.1) && decide (c.1 < (shape.1 : Int)) &&
    decide (0 ≤ c.2.1) && decide (c.2.1 < (shape.2.1 : Int)) &&
    decide (0 ≤ c.2.2) && decide (c.2.2 < (shape.2.2 : Int))

/-! ### `aux_functions.py`: `split_on_shapes` -/

/-- A points layer: its name, its data, and its external data-to-world
transform. -/
structure PointsLayer where
  name : String
  data : List Coord
  toWorld : Coord → Coord

/-- A shapes layer: the polygon vertex arrays and the external
`get_value` hit test (world coordinate to polygon index). -/
structure ShapesLayer where
  data : List (List Coord)
  hit_test : Coord → Option Nat

/-- The three ways `split_on_shapes` returns `None`, each with its printed
report. -/
inductive SplitErr where
  | noShapes
  | missingShape (layer : String) (point : Coord)
  | noPoints
deriving DecidableEq

/-- A row of the split table: data coordinates, source layer name, polygon
index. -/
structure SRow where
  z : Int
  y : Int
  x : Int
  source_name : String
  shape_idx : Nat
deriving DecidableEq

/-- The world coordinate at which a data point is hit-tested: the forced
depth slice together with the last two world-coordinate components. -/
def hit_coord (layer : PointsLayer) (slice : Int) (p : Coord) : Coord :=
  (slice, (layer.toWorld p).2.1, (layer.toWorld p).2.2)

/-- The depth slice all polygons are forced onto: the leading coordinate of
the first polygon's first vertex. -/
def shapes_slice (shapes : ShapesLayer) : Int :=
  ((shapes.data.headD []).headD (0, 0, 0)).1

/-- The inner loop of `split_on_shapes` over one layer's points: hit-test each
point at the forced slice; the first point in no polygon aborts. -/
def split_points (hit : Coord → Option Nat) (slice : Int) (layer : PointsLayer) :
    List Coord → Except SplitErr (List SRow)
  | [] => Except.ok []
  | p :: ps =>
    match hit (hit_coord layer slice p) with
    | none => Except.error (SplitErr.missingShape layer.name p)
    | some idx =>
      match split_points hit slice layer ps with
      | Except.error e => Except.error e
      | Except.ok rows => Except.ok (SRow.mk p.1 p.2.1 p.2.2 layer.name idx :: rows)

/-- The outer loop of `split_on_shapes` over all point layers. -/
def split_layers (hit : Coord → Option Nat) (slice : Int) :
    List PointsLayer → Except SplitErr (List SRow)
  | [] => Except.ok []
  | layer :: rest =>
    match split_points hit slice layer layer.data with
    | Except.error e => Except.error e
    | Except.ok rows =>
      match split_layers hit slice rest with
      | Except.error e => Except.error e
      | Except.ok rows2 => Except.ok (rows ++ rows2)

/-- Force every polygon vertex onto the shared depth slice
(`out_layer[:, :-2] = slice`). -/
def force_slice (polys : List (List Coord)) (z : Int) : List (List Coord) :=
  polys.map (fun poly => poly.map (fun c => (z, c.2.1, c.2.2)))

/-- `split_on_shapes`: no polygons is an error; otherwise all polygons are
forced onto the depth slice of the first polygon's first vertex, every point
of every layer is hit-tested there (a point in no polygon aborts the whole
operation, reporting layer and point), and an empty row set is reported
distinctly. -/
def split_on_shapes (point_layers : List PointsLayer) (shapes : ShapesLayer) :
    Except SplitErr (List SRow) :=
  match shapes.data with
  | [] => Except.error SplitErr.noShapes
  | _ :: _ =>
    let slice := shapes_slice shapes
    let _shapes2 := { shapes with data := force_slice shapes.data slice }
    match split_layers shapes.hit_test slice point_layers with
    | Except.error e => Except.error e
    | Except.ok rows =>
      if rows.isEmpty then Except.error SplitErr.noPoints else Except.ok rows

/-! ## Lemmas: the decimal rendering is injective -/

theorem valLE_natDigitsLE : ∀ fuel n, n ≤ fuel → valLE (natDigitsLE fuel n) = n := by
  intro fuel
  induction fuel with
  | zero =>
    intro n hn
    have : n = 0 := by omega
    subst this
    rfl
  | succ f ih =>
    intro n hn
    match n with
    | 0 => rfl
    | m + 1 =>
      have hdiv : (m + 1) / 10 ≤ f := by
        have h1 : (m + 1) / 10 < m + 1 := Nat.div_lt_self (Nat.succ_pos m) (by norm_num)
        omega
      simp only [natDigitsLE, valLE, ih _ hdiv]
      omega

theorem natDigitsLE_lt_ten : ∀ fuel n, ∀ d ∈ natDigitsLE fuel n, d < 10 := by
  intro fuel
  induction fuel with
  | zero => intro n d hd; simp [natDigitsLE] at hd
  | succ f ih =>
    intro n d hd
    match n with
    | 0 => simp [natDigitsLE] at hd
    | m + 1 =>
      simp only [natDigitsLE, List.mem_cons] at hd
      rcases hd with h | h
      · subst h; exact Nat.mod_lt _ (by norm_num)
      · exact ih _ _ h

theorem digitChar_toNat : ∀ d, d < 10 → (digitChar d).toNat - 48 = d := by decide

theorem strVal_natRepr (n : Nat) : strVal (natRepr n) = n := by
  by_cases h : n = 0
  · subst h; rfl
  · unfold natRepr strVal
    rw [if_neg h]
    have hdata : (String.mk (((natDigitsLE n n).map digitChar).reverse)).data =
        ((natDigitsLE n n).map digitChar).reverse := rfl
    rw [hdata, List.reverse_reverse, List.map_map]
    have : (natDigitsLE n n).map ((fun ch => ch.toNat - 48) ∘ digitChar) =
        (natDigitsLE n n).map id := by
      apply List.map_congr_left
      intro d hd
      exact digitChar_toNat d (natDigitsLE_lt_ten n n d hd)
    rw [this, List.map_id]
    exact valLE_natDigitsLE n n le_rfl

theorem natRepr_inj {m n : Nat} (h : natRepr m = natRepr n) : m = n := by
  have := congrArg strVal h
  rwa [strVal_natRepr, strVal_natRepr] at this

theorem append_index_inj (name : String) {a b : Nat}
    (h : append_index name a = append_index name b) : a = b := by
  unfold append_index at h
  have hd := congrArg String.data h
  simp only [String.data_append] at hd
  have h1 := List.append_cancel_right hd
  have h2 := List.append_cancel_left h1
  exact natRepr_inj (String.ext h2)

/-! ## Lemmas: the name-deduplication loop produces distinct names -/

theorem find_int_cases (name : String) (acc : List String) :
    ∀ fuel start, append_index name (find_int name acc fuel start) ∉ acc ∨
      (∀ k, start ≤ k → k < start + fuel → append_index name k ∈ acc) := by
  intro fuel
  induction fuel with
  | zero => intro start; right; intro k h1 h2; omega
  | succ f ih =>
    intro start
    by_cases h : append_index name start ∈ acc
    · simp only [find_int, if_pos h]
      rcases ih (start + 1) with h1 | h1
      · left; exact h1
      · right
        intro k hk1 hk2
        rcases Nat.eq_or_lt_of_le hk1 with heq | hlt
        · exact heq ▸ h
        · exact h1 k hlt (by omega)
    · left
      simp only [find_int, if_neg h]
      exact h

theorem find_int_fresh (name : String) (acc : List String) :
    append_index name (find_int name acc (acc.length + 1) 1) ∉ acc := by
  rcases find_int_cases name acc (acc.length + 1) 1 with h | h
  · exact h
  · exfalso
    have hsub : (List.range' 1 (acc.length + 1)).map (append_index name) ⊆ acc := by
      intro x hx
      simp only [List.mem_map, List.mem_range'] at hx
      obtain ⟨k, ⟨i, hi, hk⟩, rfl⟩ := hx
      exact h k (by omega) (by omega)
    have hnd : ((List.range' 1 (acc.length + 1)).map (append_index name)).Nodup :=
      List.Nodup.map (fun a b hab => append_index_inj name hab) (List.nodup_range' 1 _)
    have hle := (hnd.subperm hsub).length_le
    simp only [List.length_map, List.length_range'] at hle
    omega

theorem uniquify_go_nodup : ∀ names acc : List String, acc.Nodup →
    (uniquify_go acc names).Nodup := by
  intro names
  induction names with
  | nil => intro acc h; simpa [uniquify_go] using h
  | cons name rest ih =>
    intro acc h
    by_cases hmem : name ∈ acc
    · simp only [uniquify_go, if_pos hmem]
      refine ih _ ?_
      simp [List.nodup_append, h, find_int_fresh name acc]
    · simp only [uniquify_go, if_neg hmem]
      refine ih _ ?_
      simp [List.nodup_append, h, hmem]

theorem uniquify_nodup (names : List String) : (uniquify names).Nodup :=
  uniquify_go_nodup names [] (by simp)

theorem uniquify_go_eq_of_nodup : ∀ names acc : List String, (acc ++ names).Nodup →
    uniquify_go acc names = acc ++ names := by
  intro names
  induction names with
  | nil => intro acc _; simp [uniquify_go]
  | cons name rest ih =>
    intro acc h
    have hmem : name ∉ acc := by
      rw [List.nodup_append] at h
      intro hc
      exact h.2.2 hc (by simp)
    simp only [uniquify_go, if_neg hmem]
    rw [ih (acc ++ [name]) (by simpa using h)]
    simp

theorem uniquify_eq_of_nodup {names : List String} (h : names.Nodup) :
    uniquify names = names := by
  simpa [uniquify] using uniquify_go_eq_of_nodup names [] (by simpa using h)

theorem uniquify_go_length : ∀ names acc : List String,
    (uniquify_go acc names).length = acc.length + names.length := by
  intro names
  induction names with
  | nil => intro acc; simp [uniquify_go]
  | cons name rest ih =>
    intro acc
    by_cases hmem : name ∈ acc
    · simp only [uniquify_go, if_pos hmem]
      rw [ih]
      simp
      omega
    · simp only [uniquify_go, if_neg hmem]
      rw [ih]
      simp
      omega

theorem uniquify_length (names : List String) : (uniquify names).length = names.length := by
  simpa [uniquify] using uniquify_go_length names []

/-! ## Lemmas: the default-filling loop -/

theorem fill_go_length : ∀ (reqs : List (Option String)) (dl : List String),
    reqs.length ≤ dl.length → (fill_go reqs dl).length = reqs.length := by
  intro reqs
  induction reqs with
  | nil => intro dl _; rfl
  | cons r rest ih =>
    intro dl h
    match r, dl with
    | some v, dl =>
      simp only [fill_go, List.length_cons]
      rw [ih dl (by simp at h; omega)]
    | none, [] => simp at h
    | none, d :: dl' =>
      simp only [fill_go, List.length_cons]
      rw [ih dl' (by simp at h; omega)]

theorem fill_go_all_some : ∀ (reqs : List (Option String)) (dl : List String),
    (∀ r ∈ reqs, r.isSome) → fill_go reqs dl = reqs.filterMap id := by
  intro reqs
  induction reqs with
  | nil => intro dl _; rfl
  | cons r rest ih =>
    intro dl h
    match r with
    | some v => simp [fill_go, ih dl (fun x hx => h x (by simp [hx]))]
    | none => exact absurd (h none (by simp)) (by simp)

theorem fill_go_mem : ∀ (reqs : List (Option String)) (dl : List String) (x : String),
    x ∈ fill_go reqs dl → some x ∈ reqs ∨ x ∈ dl := by
  intro reqs
  induction reqs with
  | nil => intro dl x hx; simp [fill_go] at hx
  | cons r rest ih =>
    intro dl x hx
    match r, dl with
    | some v, dl =>
      simp only [fill_go, List.mem_cons] at hx
      rcases hx with rfl | hx
      · left; simp
      · rcases ih dl x hx with h | h
        · left; simp [h]
        · right; exact h
    | none, [] =>
      rcases ih [] x hx with h | h
      · left; simp [h]
      · simp at h
    | none, d :: dl' =>
      simp only [fill_go, List.mem_cons] at hx
      rcases hx with rfl | hx
      · right; simp
      · rcases ih dl' x hx with h | h
        · left; simp [h]
        · right; simp [h]

theorem fill_go_pairwise : ∀ (reqs : List (Option String)) (dl : List String),
    (reqs.filterMap id).Nodup →
    (∀ d ∈ dl, d ∈ reqs.filterMap id → d = ("")) →
    ((dl.filter (fun d => !(d == ("")))).Nodup) →
    distinct_or_empty (fill_go reqs dl) := by
  intro reqs
  induction reqs with
  | nil => intro dl _ _ _; exact List.Pairwise.nil
  | cons r rest ih =>
    intro dl h1 h2 h3
    match r, dl with
    | some v, dl =>
      have hfm : (some v :: rest).filterMap id = v :: rest.filterMap id := by simp
      rw [hfm] at h1 h2
      simp only [fill_go]
      refine List.Pairwise.cons ?_ ?_
      · intro b hb heq
        rcases fill_go_mem rest dl b hb with hmem | hmem
        · exfalso
          rw [heq] at h1
          exact (List.nodup_cons.mp h1).1 (List.mem_filterMap.mpr ⟨some b, hmem, rfl⟩)
        · rw [heq]
          exact h2 b hmem (by simp [← heq])
      · exact ih dl (List.nodup_cons.mp h1).2
          (fun d hd hmem => h2 d hd (by simp [hmem])) h3
    | none, [] =>
      have hfm : (none :: rest).filterMap id = rest.filterMap id := by simp
      rw [hfm] at h1
      exact ih [] h1 (by simp) (by simp)
    | none, d :: dl' =>
      have hfm : (none :: rest).filterMap id = rest.filterMap id := by simp
      rw [hfm] at h1 h2
      simp only [fill_go]
      refine List.Pairwise.cons ?_ ?_
      · intro b hb heq
        subst heq
        rcases fill_go_mem rest dl' d hb with hmem | hmem
        · exact h2 d (by simp) (List.mem_filterMap.mpr ⟨some d, hmem, rfl⟩)
        · by_cases hde : d = ("")
          · exact hde
          · exfalso
            have hfd : d ∈ dl'.filter (fun x => !(x == (""))) :=
              List.mem_filter.mpr ⟨hmem, by simp [hde]⟩
            have : (d :: dl').filter (fun x => !(x == (""))) =
                d :: dl'.filter (fun x => !(x == (""))) := by
              simp [List.filter_cons, hde]
            rw [this] at h3
            exact (List.nodup_cons.mp h3).1 hfd
      · refine ih dl' h1 (fun x hx hmem => h2 x (by simp [hx]) hmem) ?_
        have hsub : List.Sublist (dl'.filter (fun x => !(x == (""))))
            ((d :: dl').filter (fun x => !(x == ("")))) :=
          List.Sublist.filter _ (List.sublist_cons_self d dl')
        exact hsub.nodup h3

/-! ## Lemmas: `fill_in_defaults` -/

theorem mem_remaining_defaults {reqs : List (Option String)} {dfl : List String}
    {d : String} : d ∈ remaining_defaults reqs dfl ↔ d ∈ dfl ∧ some d ∉ reqs := by
  unfold remaining_defaults
  simp only [List.mem_filter, decide_eq_true_eq]
  constructor
  · rintro ⟨hin, hnot⟩
    exact ⟨hin, fun hc => hnot ⟨hin, hc⟩⟩
  · rintro ⟨hin, hnot⟩
    exact ⟨hin, fun hc => hnot hc.2⟩

theorem fill_in_defaults_ok {reqs : List (Option String)} {dfl : List String}
    {out : List String} (h : fill_in_defaults reqs dfl = Except.ok out) :
    ∃ last, (remaining_defaults reqs dfl).getLast? = some last ∧
      out = fill_go reqs (remaining_defaults reqs dfl ++ List.replicate reqs.length last) := by
  unfold fill_in_defaults at h
  cases hg : (remaining_defaults reqs dfl).getLast? with
  | none => rw [hg] at h; exact absurd h (by simp)
  | some last =>
    rw [hg] at h
    simp only [Except.ok.injEq] at h
    exact ⟨last, rfl, h.symm⟩

theorem fill_in_defaults_error {reqs : List (Option String)} {dfl : List String}
    {e : CfgErr} (h : fill_in_defaults reqs dfl = Except.error e) :
    e = CfgErr.indexError := by
  unfold fill_in_defaults at h
  cases hg : (remaining_defaults reqs dfl).getLast? with
  | none =>
    rw [hg] at h
    exact (Except.error.inj h).symm
  | some last =>
    rw [hg] at h
    exact absurd h (by simp)

theorem fill_in_defaults_length {reqs : List (Option String)} {dfl : List String}
    {out : List String} (h : fill_in_defaults reqs dfl = Except.ok out) :
    out.length = reqs.length := by
  obtain ⟨last, _, hout⟩ := fill_in_defaults_ok h
  rw [hout]
  exact fill_go_length _ _ (by simp)

theorem fill_in_defaults_all_some {reqs : List (Option String)} {dfl : List String}
    {out : List String} (hall : ∀ r ∈ reqs, r.isSome)
    (h : fill_in_defaults reqs dfl = Except.ok out) : out = reqs.filterMap id := by
  obtain ⟨last, _, hout⟩ := fill_in_defaults_ok h
  rw [hout]
  exact fill_go_all_some _ _ hall

/-! ## Lemmas: component extraction from the final `zip` -/

theorem zip_configs_maps : ∀ (ks ns cs : List String) (os ss : List Rat)
    (syms fs : List String) (es : List Rat),
    ns.length = ks.length → cs.length = ks.length → os.length = ks.length →
    ss.length = ks.length → syms.length = ks.length → fs.length = ks.length →
    es.length = ks.length →
    (zip_configs ks ns cs os ss syms fs es).map (fun c => c.keybind) = ks ∧
    (zip_configs ks ns cs os ss syms fs es).map (fun c => c.name) = ns ∧
    (zip_configs ks ns cs os ss syms fs es).map (fun c => c.color) = cs ∧
    (zip_configs ks ns cs os ss syms fs es).map (fun c => c.outline_size) = os ∧
    (zip_configs ks ns cs os ss syms fs es).map (fun c => c.out_of_slice_point_size) = ss ∧
    (zip_configs ks ns cs os ss syms fs es).map (fun c => c.symbol) = syms ∧
    (zip_configs ks ns cs os ss syms fs es).map (fun c => c.face_color) = fs ∧
    (zip_configs ks ns cs os ss syms fs es).map (fun c => c.edge_width) = es := by
  intro ks
  induction ks with
  | nil =>
    intro ns cs os ss syms fs es h1 h2 h3 h4 h5 h6 h7
    rw [List.length_nil, List.length_eq_zero] at h1 h2 h3 h4 h5 h6 h7
    subst h1; subst h2; subst h3; subst h4; subst h5; subst h6; subst h7
    simp [zip_configs]
  | cons k ks ih =>
    intro ns cs os ss syms fs es h1 h2 h3 h4 h5 h6 h7
    match ns, cs, os, ss, syms, fs, es with
    | [], _, _, _, _, _, _ => simp at h1
    | _ :: _, [], _, _, _, _, _ => simp at h2
    | _ :: _, _ :: _, [], _, _, _, _ => simp at h3
    | _ :: _, _ :: _, _ :: _, [], _, _, _ => simp at h4
    | _ :: _, _ :: _, _ :: _, _ :: _, [], _, _ => simp at h5
    | _ :: _, _ :: _, _ :: _, _ :: _, _ :: _, [], _ => simp at h6
    | _ :: _, _ :: _, _ :: _, _ :: _, _ :: _, _ :: _, [] => simp at h7
    | n :: ns, c :: cs, o :: os, s :: ss, sym :: syms, f :: fs, e :: es =>
      simp only [List.length_cons, Nat.add_right_cancel_iff] at h1 h2 h3 h4 h5 h6 h7
      have := ih ns cs os ss syms fs es h1 h2 h3 h4 h5 h6 h7
      simp only [zip_configs, List.map_cons]
      exact ⟨by rw [this.1], by rw [this.2.1], by rw [this.2.2.1], by rw [this.2.2.2.1],
        by rw [this.2.2.2.2.1], by rw [this.2.2.2.2.2.1], by rw [this.2.2.2.2.2.2.1],
        by rw [this.2.2.2.2.2.2.2]⟩

/-! ## Lemmas: keybind resolution yields distinct-or-empty keybinds
when the explicit keybinds are distinct and non-empty -/

theorem getLast?_filter_append_singleton {α : Type} [DecidableEq α] {p : α → Bool}
    {l : List α} {a : α} (h : p a = true) :
    ((l ++ [a]).filter p).getLast? = some a := by
  rw [List.filter_append]
  have : [a].filter p = [a] := by simp [List.filter_cons, h]
  rw [this]
  exact List.getLast?_concat _

theorem mem_keybind_requests {cfgs : List CellTypeConfig} {d : String} :
    some d ∈ keybind_requests cfgs ↔ d ∈ cfgs.filterMap (fun c => c.keybind) := by
  constructor
  · intro hd
    obtain ⟨c, hc, hcd⟩ := List.mem_map.mp hd
    exact List.mem_filterMap.mpr ⟨c, hc, hcd⟩
  · intro hd
    obtain ⟨c, hc, hcd⟩ := List.mem_filterMap.mp hd
    exact List.mem_map.mpr ⟨c, hc, hcd⟩

theorem keybind_requests_filterMap (cfgs : List CellTypeConfig) :
    (keybind_requests cfgs).filterMap id = cfgs.filterMap (fun c => c.keybind) := by
  simp [keybind_requests, List.filterMap_map, Function.comp]

theorem keymaps_distinct_or_empty {cfgs : List CellTypeConfig} {out : List String}
    (hnd : (cfgs.filterMap (fun c => c.keybind)).Nodup)
    (hne : ("") ∉ cfgs.filterMap (fun c => c.keybind))
    (h : fill_in_defaults (keybind_requests cfgs) DEFAULT_KEYMAP_SEQUENCE = Except.ok out) :
    distinct_or_empty out := by
  obtain ⟨last, hlast, hout⟩ := fill_in_defaults_ok h
  have hp : some ("") ∉ keybind_requests cfgs := fun hc => hne (mem_keybind_requests.mp hc)
  have hlast2 : (remaining_defaults (keybind_requests cfgs)
      DEFAULT_KEYMAP_SEQUENCE).getLast? = some ("") := by
    unfold remaining_defaults
    rw [show DEFAULT_KEYMAP_SEQUENCE = ["q", "w", "e", "r", "t", "y"] ++ [("")] from rfl]
    apply getLast?_filter_append_singleton
    rw [decide_eq_true_eq]
    intro hc
    rw [List.mem_filter, decide_eq_true_eq] at hc
    exact hp hc.2
  have hlast_empty : last = ("") := by
    rw [hlast] at hlast2
    exact Option.some.inj hlast2
  subst hlast_empty
  rw [hout]
  apply fill_go_pairwise
  · rw [keybind_requests_filterMap]
    exact hnd
  · intro d hd hdk
    rw [keybind_requests_filterMap] at hdk
    rcases List.mem_append.mp hd with hdl | hrep
    · exact absurd (mem_keybind_requests.mpr hdk) (mem_remaining_defaults.mp hdl).2
    · exact List.eq_of_mem_replicate hrep
  · rw [List.filter_append]
    have hrep : (List.replicate (keybind_requests cfgs).length ("")).filter
        (fun d => !(d == (""))) = [] := by
      rw [List.filter_eq_nil_iff]
      intro a ha
      rw [List.eq_of_mem_replicate ha]
      simp
    rw [hrep, List.append_nil]
    apply List.Nodup.filter
    unfold remaining_defaults
    exact List.Nodup.filter _ (by decide)

theorem requested_names_length (cfgs : List CellTypeConfig) :
    (requested_names cfgs).length = cfgs.length := by
  simp [requested_names]

/-- Successful runs of the resolver are exactly the final `zip` of the eight
resolved per-field lists, with both fills succeeding and sizes agreeing. -/
theorem process_ok_shape {cfgs : List CellTypeConfig}
    {out : List CellTypeConfigNotOptional}
    (h : process_cell_type_config cfgs = Except.ok out) :
    ∃ colors keymaps,
      fill_in_defaults (color_requests cfgs) DEFAULT_COLOR_SEQUENCE = Except.ok colors ∧
      fill_in_defaults (keybind_requests cfgs) DEFAULT_KEYMAP_SEQUENCE = Except.ok keymaps ∧
      sizes_disagree cfgs = false ∧
      out = zip_configs keymaps (uniquify (requested_names cfgs)) colors
        (cfgs.map (fun c => c.outline_size.getD DEFAULT_OUTLINE_SIZE))
        (resolved_oos_sizes cfgs)
        (cfgs.map (fun c => c.symbol.getD DEFAULT_SYMBOL))
        (cfgs.map (fun c => c.face_color.getD DEFAULT_FACE_COLOR))
        (cfgs.map (fun c => c.edge_width.getD DEFAULT_EDGE_WIDTH)) := by
  unfold process_cell_type_config at h
  cases hc : fill_in_defaults (color_requests cfgs) DEFAULT_COLOR_SEQUENCE with
  | error e => rw [hc] at h; exact absurd h (by simp)
  | ok colors =>
    rw [hc] at h
    cases hk : fill_in_defaults (keybind_requests cfgs) DEFAULT_KEYMAP_SEQUENCE with
    | error e => rw [hk] at h; exact absurd h (by simp)
    | ok keymaps =>
      rw [hk] at h
      cases hs : sizes_disagree cfgs with
      | true => rw [hs] at h; simp at h
      | false =>
        rw [hs] at h
        simp only [Bool.false_eq_true, if_false, Except.ok.injEq] at h
        exact ⟨colors, keymaps, rfl, rfl, rfl, h.symm⟩

/-- C2 (amended): every successful resolution yields pairwise-distinct names;
and whenever the explicitly requested keybinds are pairwise distinct and none
of them is the empty string, the resolved keybinds are pairwise
distinct-or-empty. -/
theorem c2_resolved_names_keybinds {cfgs : List CellTypeConfig}
    {out : List CellTypeConfigNotOptional}
    (h : process_cell_type_config cfgs = Except.ok out) :
    (out.map (fun c => c.name)).Nodup ∧
      ((cfgs.filterMap (fun c => c.keybind)).Nodup ∧
          ("") ∉ cfgs.filterMap (fun c => c.keybind) →
        distinct_or_empty (out.map (fun c => c.keybind))) := by
  obtain ⟨colors, keymaps, hc, hk, _, hzip⟩ := process_ok_shape h
  have hklen : keymaps.length = cfgs.length := by
    have := fill_in_defaults_length hk
    simpa [keybind_requests] using this
  have hclen : colors.length = cfgs.length := by
    have := fill_in_defaults_length hc
    simpa [color_requests] using this
  have hnlen : (uniquify (requested_names cfgs)).length = keymaps.length := by
    rw [uniquify_length, requested_names_length, hklen]
  obtain ⟨hmk, hmn, _, _, _, _, _, _⟩ := zip_configs_maps keymaps
    (uniquify (requested_names cfgs)) colors
    (cfgs.map (fun c => c.outline_size.getD DEFAULT_OUTLINE_SIZE))
    (resolved_oos_sizes cfgs)
    (cfgs.map (fun c => c.symbol.getD DEFAULT_SYMBOL))
    (cfgs.map (fun c => c.face_color.getD DEFAULT_FACE_COLOR))
    (cfgs.map (fun c => c.edge_width.getD DEFAULT_EDGE_WIDTH))
    hnlen (by rw [hclen, hklen]) (by simp [hklen])
    (by simp [resolved_oos_sizes, hklen]) (by simp [hklen]) (by simp [hklen])
    (by simp [hklen])
  constructor
  · rw [hzip, hmn]
    exact uniquify_nodup _
  · rintro ⟨hnd, hne⟩
    rw [hzip, hmk]
    exact keymaps_distinct_or_empty hnd hne hk

/-- C2 counterexample: two requests that both explicitly ask for keybind "q"
resolve successfully, yet the resolved keybinds are `["q", "q"]` — two equal
non-empty keybinds, so the keybind part of the claim fails as stated. -/
theorem c2_counterexample :
    (process_cell_type_config [{ keybind := some ("q") }, { keybind := some ("q") }]).map
        (fun l => l.map (fun c => c.keybind)) = Except.ok [("q"), ("q")] ∧
      ¬ distinct_or_empty [("q"), ("q")] :=
  ⟨by decide, by decide⟩

/-- C2 witness: the amended theorem applied to two empty requests. -/
theorem c2_witness :
    process_cell_type_config [{}, {}] = Except.ok c2_example_out ∧
      ((c2_example_out.map (fun c => c.name)).Nodup ∧
        ((([{}, {}] : List CellTypeConfig).filterMap (fun c => c.keybind)).Nodup ∧
            ("") ∉ ([{}, {}] : List CellTypeConfig).filterMap (fun c => c.keybind) →
          distinct_or_empty (c2_example_out.map (fun c => c.keybind)))) :=
  ⟨by decide, c2_resolved_names_keybinds (by decide)⟩

/-- C3 (amended): the resolver fails with the configuration error
(`ValueError`, "All out of slice points sizes must be the same") exactly when
the defaulted out-of-slice sizes disagree and neither default-fill pass has
already died with `IndexError`; in particular, on any input on which the
resolver terminates normally or with the configuration error, that error
occurs iff the defaulted sizes are not all equal. -/
theorem c3_config_error_iff (cfgs : List CellTypeConfig) :
    is_config_error (process_cell_type_config cfgs) = true ↔
      sizes_disagree cfgs = true ∧
        (fill_in_defaults (color_requests cfgs) DEFAULT_COLOR_SEQUENCE).isOk = true ∧
        (fill_in_defaults (keybind_requests cfgs) DEFAULT_KEYMAP_SEQUENCE).isOk = true := by
  unfold process_cell_type_config
  cases hc : fill_in_defaults (color_requests cfgs) DEFAULT_COLOR_SEQUENCE with
  | error e =>
    have he := fill_in_defaults_error hc
    subst he
    simp [hc, is_config_error, Except.isOk, Except.toBool]
  | ok colors =>
    cases hk : fill_in_defaults (keybind_requests cfgs) DEFAULT_KEYMAP_SEQUENCE with
    | error e =>
      have he := fill_in_defaults_error hk
      subst he
      simp [hk, is_config_error, Except.isOk, Except.toBool]
    | ok keymaps =>
      cases hs : sizes_disagree cfgs with
      | true => simp [hs, is_config_error, Except.isOk, Except.toBool]
      | false => simp [hs, is_config_error, Except.isOk, Except.toBool]

/-- C3 counterexample: the seven requests below have disagreeing out-of-slice
sizes (100 vs 10), yet because their keybinds exhaust the whole default keymap
sequence, `fill_in_defaults` raises `IndexError` before the size check runs:
the resolver does not fail with the configuration error. -/
theorem c3_counterexample :
    sizes_disagree
        [{ keybind := some ("q"), out_of_slice_point_size := some 100 },
         { keybind := some ("w"), out_of_slice_point_size := some 10 },
         { keybind := some ("e"), out_of_slice_point_size := some 10 },
         { keybind := some ("r"), out_of_slice_point_size := some 10 },
         { keybind := some ("t"), out_of_slice_point_size := some 10 },
         { keybind := some ("y"), out_of_slice_point_size := some 10 },
         { keybind := some (""), out_of_slice_point_size := some 10 }] = true ∧
      process_cell_type_config
        [{ keybind := some ("q"), out_of_slice_point_size := some 100 },
         { keybind := some ("w"), out_of_slice_point_size := some 10 },
         { keybind := some ("e"), out_of_slice_point_size := some 10 },
         { keybind := some ("r"), out_of_slice_point_size := some 10 },
         { keybind := some ("t"), out_of_slice_point_size := some 10 },
         { keybind := some ("y"), out_of_slice_point_size := some 10 },
         { keybind := some (""), out_of_slice_point_size := some 10 }] =
        Except.error CfgErr.indexError :=
  ⟨by decide, by decide⟩

/-- C10: a request list whose explicit keybinds cover the whole default keymap
sequence drives `fill_in_defaults` to evaluate `default_list[-1]` on an empty
list: the resolver dies with an uncaught `IndexError` instead of returning a
resolved list or raising the configuration error. -/
theorem c10_defaults_exhausted :
    fill_in_defaults (DEFAULT_KEYMAP_SEQUENCE.map some) DEFAULT_KEYMAP_SEQUENCE =
        Except.error CfgErr.indexError ∧
      process_cell_type_config
        (DEFAULT_KEYMAP_SEQUENCE.map (fun k => { keybind := some k })) =
        Except.error CfgErr.indexError :=
  ⟨by decide, by decide⟩

/-! ## Lemmas: the counting-session undo-stack invariant (C1), empty undo
(C8) and state changes (C9) -/

theorem getD_set_self {α : Type} (l : List α) (i : Nat) (x d : α) (h : i < l.length) :
    (l.set i x).getD i d = x := by
  rw [List.getD_eq_getElem?_getD, List.getElem?_set]
  simp [h]

theorem getD_set_ne {α : Type} (l : List α) {i j : Nat} (x d : α) (h : i ≠ j) :
    (l.set i x).getD j d = l.getD j d := by
  rw [List.getD_eq_getElem?_getD, List.getElem?_set]
  simp only [if_neg h]
  exact (List.getD_eq_getElem?_getD l j d).symm

theorem sum_map_add {α : Type} (l : List α) (f g : α → Nat) :
    (l.map (fun i => f i + g i)).sum = (l.map f).sum + (l.map g).sum := by
  induction l with
  | nil => rfl
  | cons a t ih => simp [ih]; omega

theorem sum_map_zero {α : Type} {l : List α} {f : α → Nat} (h : ∀ x ∈ l, f x = 0) :
    (l.map f).sum = 0 := by
  induction l with
  | nil => rfl
  | cons a t ih =>
    simp only [List.map_cons, List.sum_cons]
    rw [h a (by simp), ih (fun x hx => h x (by simp [hx]))]

theorem sum_indicator {n j : Nat} (h : j < n) :
    ((List.range n).map (fun i => if (j == i) = true then 1 else 0)).sum = 1 := by
  induction n with
  | zero => omega
  | succ n ih =>
    rw [List.range_succ, List.map_append, List.sum_append]
    by_cases hj : j < n
    · rw [ih hj]
      have : ∀ x ∈ [n], (if (j == x) = true then 1 else 0) = 0 := by
        intro x hx
        rw [List.mem_singleton] at hx
        subst hx
        simp
        omega
      simp only [List.map_singleton, List.sum_singleton]
      rw [this n (by simp)]
    · have hjn : j = n := by omega
      subst hjn
      have : ∀ x ∈ List.range j, (if (j == x) = true then 1 else 0) = 0 := by
        intro x hx
        rw [List.mem_range] at hx
        simp
        omega
      rw [sum_map_zero this]
      simp

theorem count_range_sum : ∀ (stack : List Nat) (n : Nat), (∀ j ∈ stack, j < n) →
    ((List.range n).map (fun i => List.count i stack)).sum = stack.length := by
  intro stack
  induction stack with
  | nil =>
    intro n _
    apply sum_map_zero
    intro x _
    exact List.count_nil x
  | cons j t ih =>
    intro n h
    have hj : j < n := h j (by simp)
    have ht : ∀ x ∈ t, x < n := fun x hx => h x (by simp [hx])
    simp only [List.count_cons]
    rw [sum_map_add, ih n ht, sum_indicator hj]
    simp

theorem range_map_getD {α : Type} : ∀ (l : List α) (d : α),
    (List.range l.length).map (fun i => l.getD i d) = l := by
  intro l
  induction l with
  | nil => simp
  | cons a t ih =>
    intro d
    rw [List.length_cons, List.range_succ_eq_map]
    simp only [List.map_cons, List.map_map]
    rw [List.getD_cons_zero]
    have hcomp : ((fun i => (a :: t).getD i d) ∘ Nat.succ) = fun i => t.getD i d := by
      funext i
      simp [Function.comp, List.getD_cons_succ]
    rw [hcomp, ih d]

theorem map_length_sum_eq {α : Type} (l : List (List α)) :
    (l.map List.length).sum =
      ((List.range l.length).map (fun i => (l.getD i []).length)).sum := by
  rw [show (fun i => (l.getD i []).length) = List.length ∘ (fun i => l.getD i []) from rfl]
  rw [← List.map_map, range_map_getD]

theorem session_inv_new_point {s : Session} (h : session_inv s) (c : Coord) :
    session_inv (new_pointer_point s c) := by
  obtain ⟨h1, h2, h3⟩ := h
  unfold new_pointer_point handle_data_changed_push update_out_of_slice
  refine ⟨?_, ?_, ?_⟩
  · intro j hj
    simp only [List.length_set]
    rcases List.mem_append.mp hj with hj | hj
    · exact h1 j hj
    · rw [List.mem_singleton] at hj
      subst hj
      exact h2
  · simpa using h2
  · intro i
    simp only
    rw [List.count_append]
    by_cases hia : i = s.pointer_type_state
    · subst hia
      rw [getD_set_self _ _ _ _ h2, List.length_append,
        ← h3 s.pointer_type_state]
      simp [List.count_cons]
    · rw [getD_set_ne _ _ _ (fun he => hia he.symm), ← h3 i]
      have hne2 : ¬(s.pointer_type_state = i) := fun he => hia he.symm
      simp [List.count_cons, hne2]

theorem session_inv_undo {s : Session} (h : session_inv s) : session_inv (undo s).1 := by
  obtain ⟨h1, h2, h3⟩ := h
  unfold undo
  cases hg : s.undo_stack.getLast? with
  | none => exact ⟨h1, h2, h3⟩
  | some i =>
    obtain ⟨ys, hys⟩ := List.getLast?_eq_some_iff.mp hg
    have hi_mem : i ∈ s.undo_stack := by rw [hys]; simp
    have hi_lt : i < s.slots.length := h1 i hi_mem
    simp only [update_out_of_slice]
    refine ⟨?_, ?_, ?_⟩
    · intro j hj
      simp only [List.length_set]
      exact h1 j (List.mem_of_mem_dropLast hj)
    · simp only [List.length_set]
      exact h2
    · intro k
      simp only
      by_cases hki : k = i
      · subst hki
        rw [getD_set_self _ _ _ _ hi_lt, List.length_dropLast]
        have hlen : (s.slots.getD k []).length = List.count k ys + 1 := by
          rw [← h3 k, hys, List.count_append]
          simp [List.count_cons]
        rw [hys, List.dropLast_concat, hlen]
        omega
      · rw [getD_set_ne _ _ _ (fun he => hki he.symm), ← h3 k]
        rw [hys, List.dropLast_concat, List.count_append]
        have hki2 : ¬(i = k) := fun he => hki he.symm
        simp [List.count_cons, hki2]

theorem session_inv_step {s : Session} (h : session_inv s) (op : Op) :
    session_inv (step s op) := by
  cases op with
  | new_point c => exact session_inv_new_point h c
  | undo_op => exact session_inv_undo h

theorem session_inv_run : ∀ (ops : List Op) (s : Session), session_inv s →
    session_inv (run_session s ops) := by
  intro ops
  induction ops with
  | nil => intro s h; exact h
  | cons op rest ih =>
    intro s h
    rw [show run_session s (op :: rest) = run_session (step s op) rest from rfl]
    exact ih _ (session_inv_step h op)

theorem session_inv_init {m active : Nat} (h : active < m) :
    session_inv (init_session m active) := by
  refine ⟨?_, ?_, ?_⟩
  · intro j hj
    simp [init_session] at hj
  · simpa [init_session] using h
  · intro i
    simp only [init_session, List.count_nil]
    rw [List.getD_eq_getElem?_getD, List.getElem?_replicate]
    by_cases hi : i < m <;> simp [hi]

/-- C1: starting from a session with every slot empty and an empty undo
stack (and a valid active-slot index), after any sequence of
`new_pointer_point` / `undo` operations the length of the undo stack equals
the total number of coordinates across all slots' layers.  Since the theorem
quantifies over all operation sequences, it holds after every prefix of any
sequence. -/
theorem c1_undo_stack_invariant (m active : Nat) (h : active < m) (ops : List Op) :
    (run_session (init_session m active) ops).undo_stack.length =
      total_points (run_session (init_session m active) ops) := by
  obtain ⟨h1, _, h3⟩ := session_inv_run ops _ (session_inv_init h)
  unfold total_points
  rw [map_length_sum_eq]
  have : ((List.range (run_session (init_session m active) ops).slots.length).map
      (fun i => ((run_session (init_session m active) ops).slots.getD i []).length)) =
      ((List.range (run_session (init_session m active) ops).slots.length).map
      (fun i => List.count i (run_session (init_session m active) ops).undo_stack)) := by
    apply List.map_congr_left
    intro i _
    rw [h3 i]
  rw [this, count_range_sum _ _ h1]

/-- C1 witness: one point added to the single slot then undone. -/
theorem c1_witness : 0 < 1 ∧
    (run_session (init_session 1 0)
        [Op.new_point ((1 : Int), 2, 3), Op.undo_op]).undo_stack.length =
      total_points (run_session (init_session 1 0)
        [Op.new_point ((1 : Int), 2, 3), Op.undo_op]) :=
  ⟨by decide, c1_undo_stack_invariant 1 0 (by decide)
    [Op.new_point ((1 : Int), 2, 3), Op.undo_op]⟩

/-- C8: calling `undo` on an empty undo stack reports "No previous changes"
and leaves the session completely unchanged (every field, including every
slot's layer data, the out-of-slice projection and the active slot). -/
theorem c8_undo_empty_noop (s : Session) (h : s.undo_stack = []) :
    undo s = (s, some ("No previous changes")) := by
  unfold undo
  rw [h]
  rfl

/-- C8 witness. -/
theorem c8_witness :
    (Session.mk [[((1 : Int), 2, 3)]] [] 0 [] [] 0).undo_stack = [] ∧
      undo (Session.mk [[((1 : Int), 2, 3)]] [] 0 [] [] 0) =
        (Session.mk [[((1 : Int), 2, 3)]] [] 0 [] [] 0, some ("No previous changes")) :=
  ⟨rfl, c8_undo_empty_noop _ rfl⟩

/-- C9: `change_state_to` only reassigns the active slot and the label: no
slot's layer data changes, the undo stack and out-of-slice projection are
unchanged, and afterwards the active slot is a valid member of the slot
list. -/
theorem c9_change_state_frame (s : Session) (state : Nat) (h : state < s.slots.length) :
    (change_state_to s state).slots = s.slots ∧
      (change_state_to s state).undo_stack = s.undo_stack ∧
      (change_state_to s state).out_of_slice_points = s.out_of_slice_points ∧
      (change_state_to s state).pointer = s.pointer ∧
      (change_state_to s state).pointer_type_state = state ∧
      (change_state_to s state).pointer_type_state <
        (change_state_to s state).slots.length :=
  ⟨rfl, rfl, rfl, rfl, rfl, h⟩

/-- C9 witness. -/
theorem c9_witness :
    1 < (Session.mk [[], []] [] 0 [] [] 0).slots.length ∧
      ((change_state_to (Session.mk [[], []] [] 0 [] [] 0) 1).slots =
          (Session.mk [[], []] [] 0 [] [] 0).slots ∧
        (change_state_to (Session.mk [[], []] [] 0 [] [] 0) 1).undo_stack =
          (Session.mk [[], []] [] 0 [] [] 0).undo_stack ∧
        (change_state_to (Session.mk [[], []] [] 0 [] [] 0) 1).out_of_slice_points =
          (Session.mk [[], []] [] 0 [] [] 0).out_of_slice_points ∧
        (change_state_to (Session.mk [[], []] [] 0 [] [] 0) 1).pointer =
          (Session.mk [[], []] [] 0 [] [] 0).pointer ∧
        (change_state_to (Session.mk [[], []] [] 0 [] [] 0) 1).pointer_type_state = 1 ∧
        (change_state_to (Session.mk [[], []] [] 0 [] [] 0) 1).pointer_type_state <
          (change_state_to (Session.mk [[], []] [] 0 [] [] 0) 1).slots.length) :=
  ⟨by decide, c9_change_state_frame (Session.mk [[], []] [] 0 [] [] 0) 1 (by decide)⟩

/-! ## Lemmas: idempotence of the resolver on fully-specified input (C5) -/

theorem option_map_eq_some_getD {α β : Type} {o : Option α} (f : α → β) (d : α)
    (h : o.isSome = true) : o.map f = some (f (o.getD d)) := by
  cases o with
  | none => simp at h
  | some v => rfl

theorem option_eq_some_getD {α : Type} {o : Option α} (d : α)
    (h : o.isSome = true) : o = some (o.getD d) := by
  cases o with
  | none => simp at h
  | some v => rfl

theorem lookup_value_prop {β : Type} {p : β → Prop} :
    ∀ (l : List (String × β)), (∀ q ∈ l, p q.2) →
      ∀ {a : String} {b : β}, l.lookup a = some b → p b := by
  intro l
  induction l with
  | nil => intro _ a b hl; simp [List.lookup] at hl
  | cons q t ih =>
    intro hall a b hl
    match q with
    | (k, v) =>
      rw [List.lookup_cons] at hl
      cases hk : (a == k) with
      | true =>
        simp only [hk] at hl
        have := Option.some.inj hl
        subst this
        exact hall (k, v) (by simp)
      | false =>
        simp only [hk] at hl
        exact ih (fun q hq => hall q (by simp [hq])) hl

theorem lookup_is_hex8 {c h : String}
    (hl : MATPLOTLIB_NAMED_COLORS.lookup c = some h) : is_hex8 h = true :=
  lookup_value_prop (p := fun v => is_hex8 v = true) MATPLOTLIB_NAMED_COLORS
    (by decide) hl

theorem option_isSome_map {α β : Type} (f : α → β) (o : Option α) :
    (o.map f).isSome = o.isSome := by cases o <;> rfl

theorem resolve_color_idem (c : String) :
    resolve_color (resolve_color c) = resolve_color c := by
  by_cases h : is_hex8 c = true
  · have hc : resolve_color c = c := by unfold resolve_color; rw [if_pos h]
    rw [hc, hc]
  · cases hl : MATPLOTLIB_NAMED_COLORS.lookup c with
    | none =>
      have hc : resolve_color c = c := by
        unfold resolve_color
        rw [if_neg h, hl]
      rw [hc, hc]
    | some v =>
      have hc : resolve_color c = v := by
        unfold resolve_color
        rw [if_neg h, hl]
      have hcv : resolve_color v = v := by
        unfold resolve_color
        rw [if_pos (lookup_is_hex8 hl)]
      rw [hc, hcv]

theorem filterMap_eq_map_of_all_some {α β : Type} (f : α → Option β) (dflt : β) :
    ∀ l : List α, (∀ a ∈ l, (f a).isSome = true) →
      l.filterMap f = l.map (fun a => (f a).getD dflt) := by
  intro l
  induction l with
  | nil => intro _; rfl
  | cons a t ih =>
    intro h
    have ha := h a (by simp)
    cases hfa : f a with
    | none => rw [hfa] at ha; simp at ha
    | some v =>
      rw [List.filterMap_cons, List.map_cons, hfa, ih (fun x hx => h x (by simp [hx]))]
      rfl

theorem zip_pick_all_some : ∀ (ds : List String) (cfgs : List CellTypeConfig),
    ds.length = cfgs.length → (∀ c ∈ cfgs, c.name.isSome = true) →
    ((ds.zip cfgs).map (fun p => match p.2.name with | none => p.1 | some nm => nm)) =
      cfgs.map (fun c => c.name.getD ("")) := by
  intro ds
  induction ds with
  | nil =>
    intro cfgs h _
    cases cfgs with
    | nil => rfl
    | cons c cs => simp at h
  | cons d ds ih =>
    intro cfgs h hall
    cases cfgs with
    | nil => simp at h
    | cons c cs =>
      simp only [List.zip_cons_cons, List.map_cons]
      have hc := hall c (by simp)
      congr 1
      · cases hn : c.name with
        | none => rw [hn] at hc; simp at hc
        | some nm => simp [hn]
      · exact ih cs (by simpa using h) (fun x hx => hall x (by simp [hx]))

theorem requested_names_all_some {cfgs : List CellTypeConfig}
    (h : ∀ c ∈ cfgs, c.name.isSome = true) :
    requested_names cfgs = cfgs.map (fun c => c.name.getD ("")) := by
  unfold requested_names
  exact zip_pick_all_some _ cfgs (by simp) h

theorem zip_configs_map_build (g1 g2 g3 : CellTypeConfig → String)
    (g4 g5 : CellTypeConfig → Rat) (g6 g7 : CellTypeConfig → String)
    (g8 : CellTypeConfig → Rat) :
    ∀ cfgs : List CellTypeConfig,
      zip_configs (cfgs.map g1) (cfgs.map g2) (cfgs.map g3) (cfgs.map g4)
          (cfgs.map g5) (cfgs.map g6) (cfgs.map g7) (cfgs.map g8) =
        cfgs.map (fun c => ⟨g2 c, g3 c, g1 c, g4 c, g5 c, g7 c, g6 c, g8 c⟩) := by
  intro cfgs
  induction cfgs with
  | nil => rfl
  | cons c cs ih => simp only [List.map_cons, zip_configs, ih]

theorem fully_specified_fields {c : CellTypeConfig} (h : fully_specified c = true) :
    c.name.isSome = true ∧ c.color.isSome = true ∧ c.keybind.isSome = true ∧
      c.outline_size.isSome = true ∧ c.out_of_slice_point_size.isSome = true ∧
      c.face_color.isSome = true ∧ c.symbol.isSome = true ∧
      c.edge_width.isSome = true := by
  unfold fully_specified at h
  simp only [Bool.and_eq_true] at h
  exact ⟨h.1.1.1.1.1.1.1, h.1.1.1.1.1.1.2, h.1.1.1.1.1.2, h.1.1.1.1.2, h.1.1.1.2,
    h.1.1.2, h.1.2, h.2⟩

/-- On fully-specified input with distinct names, a successful resolution
returns exactly the per-request explicit values (with colors normalized). -/
theorem process_full_spec {cfgs : List CellTypeConfig}
    {y : List CellTypeConfigNotOptional}
    (hfull : ∀ c ∈ cfgs, fully_specified c = true)
    (hnames : (cfgs.map (fun c => c.name.getD (""))).Nodup)
    (h : process_cell_type_config cfgs = Except.ok y) :
    y = cfgs.map config_value := by
  obtain ⟨colors, keymaps, hc, hk, _, hzip⟩ := process_ok_shape h
  have hcolors : colors = cfgs.map (fun c => resolve_color (c.color.getD (""))) := by
    have hall : ∀ r ∈ color_requests cfgs, r.isSome = true := by
      intro r hr
      obtain ⟨c, hcm, hcr⟩ := List.mem_map.mp hr
      rw [← hcr, option_isSome_map]
      exact (fully_specified_fields (hfull c hcm)).2.1
    rw [fill_in_defaults_all_some hall hc]
    unfold color_requests
    rw [List.filterMap_map, filterMap_eq_map_of_all_some _ ("") cfgs]
    · apply List.map_congr_left
      intro c hcm
      have hcs := (fully_specified_fields (hfull c hcm)).2.1
      simp only [Function.comp_apply, id_eq]
      rw [option_map_eq_some_getD _ ("") hcs]
      rfl
    · intro c hcm
      simp only [Function.comp_apply, id_eq, option_isSome_map]
      exact (fully_specified_fields (hfull c hcm)).2.1
  have hkeymaps : keymaps = cfgs.map (fun c => c.keybind.getD ("")) := by
    have hall : ∀ r ∈ keybind_requests cfgs, r.isSome = true := by
      intro r hr
      obtain ⟨c, hcm, hcr⟩ := List.mem_map.mp hr
      rw [← hcr]
      exact (fully_specified_fields (hfull c hcm)).2.2.1
    rw [fill_in_defaults_all_some hall hk]
    unfold keybind_requests
    rw [List.filterMap_map, filterMap_eq_map_of_all_some _ ("") cfgs]
    · rfl
    · intro c hcm
      exact (fully_specified_fields (hfull c hcm)).2.2.1
  have hrn : requested_names cfgs = cfgs.map (fun c => c.name.getD ("")) :=
    requested_names_all_some (fun c hcm => (fully_specified_fields (hfull c hcm)).1)
  have hun : uniquify (requested_names cfgs) = cfgs.map (fun c => c.name.getD ("")) := by
    rw [hrn, uniquify_eq_of_nodup hnames]
  rw [hzip, hcolors, hkeymaps, hun]
  rw [show resolved_oos_sizes cfgs =
    cfgs.map (fun c => c.out_of_slice_point_size.getD DEFAULT_OUT_OF_SLICE_SIZE) from rfl]
  exact zip_configs_map_build _ _ _ _ _ _ _ _ cfgs

/-- C5: resolution is idempotent on fully-specified requests with unique
names and distinct-or-empty keybinds: converting the resolved output back to
requests and resolving again returns the same resolved list. -/
theorem c5_resolve_idempotent {cfgs : List CellTypeConfig}
    {y : List CellTypeConfigNotOptional}
    (hfull : ∀ c ∈ cfgs, fully_specified c = true)
    (hnames : (cfgs.map (fun c => c.name.getD (""))).Nodup)
    (_hkeys : distinct_or_empty (cfgs.filterMap (fun c => c.keybind)))
    (h : process_cell_type_config cfgs = Except.ok y) :
    process_cell_type_config (y.map config_to_request) = Except.ok y := by
  obtain ⟨colors, keymaps, hc, hk, hs, hzip⟩ := process_ok_shape h
  have hy : y = cfgs.map config_value := process_full_spec hfull hnames h
  have hr2 : y.map config_to_request =
      cfgs.map (fun c => config_to_request (config_value c)) := by
    rw [hy, List.map_map]
    rfl
  -- the second pass produces the same per-field request lists
  have e1 : color_requests (y.map config_to_request) = color_requests cfgs := by
    unfold color_requests
    rw [hr2, List.map_map]
    have lhs : cfgs.map ((fun c => c.color.map resolve_color) ∘
        fun c => config_to_request (config_value c)) =
        cfgs.map (fun c => some (resolve_color (c.color.getD ("")))) := by
      apply List.map_congr_left
      intro c _
      rw [Function.comp_apply]
      show some (resolve_color (resolve_color (c.color.getD ("")))) = _
      rw [resolve_color_idem]
    rw [lhs]
    apply Eq.symm
    apply List.map_congr_left
    intro c hcm
    exact option_map_eq_some_getD _ ("") (fully_specified_fields (hfull c hcm)).2.1
  have e2 : keybind_requests (y.map config_to_request) = keybind_requests cfgs := by
    unfold keybind_requests
    rw [hr2, List.map_map]
    apply Eq.symm
    apply List.map_congr_left
    intro c hcm
    exact option_eq_some_getD ("") (fully_specified_fields (hfull c hcm)).2.2.1
  have e3 : requested_names (y.map config_to_request) = requested_names cfgs := by
    rw [requested_names_all_some (by
      intro c hcm
      obtain ⟨x, _, hx⟩ := List.mem_map.mp (hr2 ▸ hcm)
      rw [← hx]
      rfl)]
    rw [requested_names_all_some
      (fun c hcm => (fully_specified_fields (hfull c hcm)).1)]
    rw [hr2, List.map_map]
    rfl
  have e5 : resolved_oos_sizes (y.map config_to_request) = resolved_oos_sizes cfgs := by
    unfold resolved_oos_sizes
    rw [hr2, List.map_map]
    apply Eq.symm
    apply List.map_congr_left
    intro c hcm
    have hcs := (fully_specified_fields (hfull c hcm)).2.2.2.2.1
    rw [option_eq_some_getD DEFAULT_OUT_OF_SLICE_SIZE hcs]
    rfl
  have e4 : (y.map config_to_request).map
      (fun c => c.outline_size.getD DEFAULT_OUTLINE_SIZE) =
      cfgs.map (fun c => c.outline_size.getD DEFAULT_OUTLINE_SIZE) := by
    rw [hr2, List.map_map]
    apply Eq.symm
    apply List.map_congr_left
    intro c hcm
    have hcs := (fully_specified_fields (hfull c hcm)).2.2.2.1
    rw [option_eq_some_getD DEFAULT_OUTLINE_SIZE hcs]
    rfl
  have e6 : (y.map config_to_request).map (fun c => c.symbol.getD DEFAULT_SYMBOL) =
      cfgs.map (fun c => c.symbol.getD DEFAULT_SYMBOL) := by
    rw [hr2, List.map_map]
    apply Eq.symm
    apply List.map_congr_left
    intro c hcm
    have hcs := (fully_specified_fields (hfull c hcm)).2.2.2.2.2.2.1
    rw [option_eq_some_getD DEFAULT_SYMBOL hcs]
    rfl
  have e7 : (y.map config_to_request).map
      (fun c => c.face_color.getD DEFAULT_FACE_COLOR) =
      cfgs.map (fun c => c.face_color.getD DEFAULT_FACE_COLOR) := by
    rw [hr2, List.map_map]
    apply Eq.symm
    apply List.map_congr_left
    intro c hcm
    have hcs := (fully_specified_fields (hfull c hcm)).2.2.2.2.2.1
    rw [option_eq_some_getD DEFAULT_FACE_COLOR hcs]
    rfl
  have e8 : (y.map config_to_request).map
      (fun c => c.edge_width.getD DEFAULT_EDGE_WIDTH) =
      cfgs.map (fun c => c.edge_width.getD DEFAULT_EDGE_WIDTH) := by
    rw [hr2, List.map_map]
    apply Eq.symm
    apply List.map_congr_left
    intro c hcm
    have hcs := (fully_specified_fields (hfull c hcm)).2.2.2.2.2.2.2
    rw [option_eq_some_getD DEFAULT_EDGE_WIDTH hcs]
    rfl
  have hs2 : sizes_disagree (y.map config_to_request) = false := by
    unfold sizes_disagree
    rw [e5]
    exact hs
  unfold process_cell_type_config
  rw [e1, hc, e2, hk]
  simp only [hs2, Bool.false_eq_true, if_false]
  rw [e3, e4, e5, e6, e7, e8]
  exact congrArg Except.ok hzip.symm

/-- C5 witness: a fully-specified two-request list, resolved twice. -/
theorem c5_witness :
    (∀ c ∈ ([⟨some ("a"), some ("#ff0000ff"), some ("q"), some 10, some 2,
        some ("#ffffff00"), some ("o"), some 1⟩,
      ⟨some ("b"), some ("#00ff00ff"), some ("w"), some 10, some 2,
        some ("#ffffff00"), some ("o"), some 1⟩] : List CellTypeConfig),
      fully_specified c = true) ∧
    process_cell_type_config
        (([⟨some ("a"), some ("#ff0000ff"), some ("q"), some 10, some 2,
            some ("#ffffff00"), some ("o"), some 1⟩,
          ⟨some ("b"), some ("#00ff00ff"), some ("w"), some 10, some 2,
            some ("#ffffff00"), some ("o"), some 1⟩] : List CellTypeConfig)) =
      Except.ok [⟨("a"), ("#ff0000ff"), ("q"), 10, 2, ("#ffffff00"), ("o"), 1⟩,
        ⟨("b"), ("#00ff00ff"), ("w"), 10, 2, ("#ffffff00"), ("o"), 1⟩] ∧
    process_cell_type_config
        (([⟨("a"), ("#ff0000ff"), ("q"), 10, 2, ("#ffffff00"), ("o"), 1⟩,
          ⟨("b"), ("#00ff00ff"), ("w"), 10, 2, ("#ffffff00"), ("o"), 1⟩] :
          List CellTypeConfigNotOptional).map config_to_request) =
      Except.ok [⟨("a"), ("#ff0000ff"), ("q"), 10, 2, ("#ffffff00"), ("o"), 1⟩,
        ⟨("b"), ("#00ff00ff"), ("w"), 10, 2, ("#ffffff00"), ("o"), 1⟩] :=
  ⟨by decide, by decide,
    @c5_resolve_idempotent
      [⟨some ("a"), some ("#ff0000ff"), some ("q"), some 10, some 2,
          some ("#ffffff00"), some ("o"), some 1⟩,
        ⟨some ("b"), some ("#00ff00ff"), some ("w"), some 10, some 2,
          some ("#ffffff00"), some ("o"), some 1⟩]
      [⟨("a"), ("#ff0000ff"), ("q"), 10, 2, ("#ffffff00"), ("o"), 1⟩,
        ⟨("b"), ("#00ff00ff"), ("w"), 10, 2, ("#ffffff00"), ("o"), 1⟩]
      (by decide) (by decide) (by decide) (by decide)⟩

/-! ## Lemmas: `np.unique` -/

theorem insert_sorted_mem (x a : String) : ∀ l : List String,
    (a ∈ insert_sorted x l ↔ a = x ∨ a ∈ l) := by
  intro l
  induction l with
  | nil => simp [insert_sorted]
  | cons y ys ih =>
    unfold insert_sorted
    by_cases h : x < y
    · simp [h]
    · simp only [if_neg h, List.mem_cons, ih]
      tauto

theorem foldr_insert_mem (a : String) : ∀ m : List String,
    (a ∈ m.foldr insert_sorted [] ↔ a ∈ m) := by
  intro m
  induction m with
  | nil => simp
  | cons x xs ih => simp [List.foldr_cons, insert_sorted_mem, ih]

theorem np_unique_mem {a : String} {l : List String} : a ∈ np_unique l ↔ a ∈ l := by
  unfold np_unique
  rw [foldr_insert_mem, List.mem_dedup]

theorem insert_sorted_nodup (x : String) : ∀ l : List String, x ∉ l → l.Nodup →
    (insert_sorted x l).Nodup := by
  intro l
  induction l with
  | nil => intro _ _; simp [insert_sorted]
  | cons y ys ih =>
    intro hx hnd
    unfold insert_sorted
    by_cases h : x < y
    · rw [if_pos h]
      exact List.nodup_cons.mpr ⟨hx, hnd⟩
    · rw [if_neg h]
      refine List.nodup_cons.mpr
        ⟨?_, ih (fun hc => hx (by simp [hc])) (List.nodup_cons.mp hnd).2⟩
      intro hc
      rw [insert_sorted_mem] at hc
      rcases hc with hc | hc
      · subst hc
        exact hx (List.mem_cons_self _ _)
      · exact (List.nodup_cons.mp hnd).1 hc

theorem np_unique_nodup (l : List String) : (np_unique l).Nodup := by
  unfold np_unique
  have haux : ∀ m : List String, m.Nodup → (m.foldr insert_sorted []).Nodup := by
    intro m
    induction m with
    | nil => intro _; simp
    | cons x xs ih =>
      intro h
      simp only [List.foldr_cons]
      refine insert_sorted_nodup x _ ?_ (ih (List.nodup_cons.mp h).2)
      rw [foldr_insert_mem]
      exact (List.nodup_cons.mp h).1
  exact haux _ l.nodup_dedup

/-! ## Lemmas: resolving name-only requests (the fresh-import path) -/

theorem remaining_defaults_all_none {α : Type} (l : List α) (dfl : List String) :
    remaining_defaults (l.map (fun _ => (none : Option String))) dfl = dfl := by
  unfold remaining_defaults
  have h1 : dfl.filter
      (fun d => decide (some d ∈ l.map (fun _ => (none : Option String)))) = [] := by
    rw [List.filter_eq_nil_iff]
    intro a _
    simp
  rw [h1]
  apply List.filter_eq_self.mpr
  intro a _
  simp

theorem process_name_only {names : List String} (hnd : names.Nodup) :
    ∃ out, process_cell_type_config (names.map (fun n => { name := some n })) =
        Except.ok out ∧ out.map (fun c => c.name) = names := by
  have hcr : color_requests (names.map (fun n => ({ name := some n } : CellTypeConfig))) =
      names.map (fun _ => none) := by
    unfold color_requests
    rw [List.map_map]
    rfl
  have hkr : keybind_requests (names.map (fun n => ({ name := some n } : CellTypeConfig))) =
      names.map (fun _ => none) := by
    unfold keybind_requests
    rw [List.map_map]
    rfl
  have hcfill : fill_in_defaults
      (color_requests (names.map (fun n => ({ name := some n } : CellTypeConfig))))
      DEFAULT_COLOR_SEQUENCE =
      Except.ok (fill_go (names.map (fun _ => none))
        (DEFAULT_COLOR_SEQUENCE ++
          List.replicate (names.map (fun _ => (none : Option String))).length
            ("#ffffffff"))) := by
    unfold fill_in_defaults
    rw [hcr, remaining_defaults_all_none]
    rfl
  have hkfill : fill_in_defaults
      (keybind_requests (names.map (fun n => ({ name := some n } : CellTypeConfig))))
      DEFAULT_KEYMAP_SEQUENCE =
      Except.ok (fill_go (names.map (fun _ => none))
        (DEFAULT_KEYMAP_SEQUENCE ++
          List.replicate (names.map (fun _ => (none : Option String))).length ((""))))
      := by
    unfold fill_in_defaults
    rw [hkr, remaining_defaults_all_none]
    rfl
  have hnames : requested_names (names.map (fun n => ({ name := some n } : CellTypeConfig))) =
      names := by
    rw [requested_names_all_some (by
      intro c hcm
      obtain ⟨n, _, hn⟩ := List.mem_map.mp hcm
      rw [← hn]
      rfl)]
    rw [List.map_map]
    have : ((fun c : CellTypeConfig => c.name.getD ("")) ∘
        fun n => ({ name := some n } : CellTypeConfig)) = id := by
      funext n
      rfl
    rw [this, List.map_id]
  have hsz : sizes_disagree (names.map (fun n => ({ name := some n } : CellTypeConfig))) =
      false := by
    unfold sizes_disagree resolved_oos_sizes
    rw [List.map_map, List.any_eq_false]
    intro x hx
    obtain ⟨n, _, hn⟩ := List.mem_map.mp hx
    rw [← hn]
    cases names with
    | nil => simp at hx
    | cons a t => simp
  obtain ⟨out, hout⟩ : ∃ out, process_cell_type_config
      (names.map (fun n => ({ name := some n } : CellTypeConfig))) = Except.ok out := by
    unfold process_cell_type_config
    rw [hcfill, hkfill]
    simp only [hsz, Bool.false_eq_true, if_false]
    exact ⟨_, rfl⟩
  refine ⟨out, hout, ?_⟩
  obtain ⟨colors, keymaps, hc, hk, _, hzip⟩ := process_ok_shape hout
  have hclen2 : colors.length = names.length := by
    have := fill_in_defaults_length hc
    simpa [color_requests] using this
  have hklen2 : keymaps.length = names.length := by
    have := fill_in_defaults_length hk
    simpa [keybind_requests] using this
  have hun : uniquify (requested_names
      (names.map (fun n => ({ name := some n } : CellTypeConfig)))) = names := by
    rw [hnames, uniquify_eq_of_nodup hnd]
  obtain ⟨_, hmn, _, _, _, _, _, _⟩ := zip_configs_maps keymaps
    (uniquify (requested_names (names.map (fun n => ({ name := some n } : CellTypeConfig)))))
    colors
    ((names.map (fun n => ({ name := some n } : CellTypeConfig))).map
      (fun c => c.outline_size.getD DEFAULT_OUTLINE_SIZE))
    (resolved_oos_sizes (names.map (fun n => ({ name := some n } : CellTypeConfig))))
    ((names.map (fun n => ({ name := some n } : CellTypeConfig))).map
      (fun c => c.symbol.getD DEFAULT_SYMBOL))
    ((names.map (fun n => ({ name := some n } : CellTypeConfig))).map
      (fun c => c.face_color.getD DEFAULT_FACE_COLOR))
    ((names.map (fun n => ({ name := some n } : CellTypeConfig))).map
      (fun c => c.edge_width.getD DEFAULT_EDGE_WIDTH))
    (by rw [hun, hklen2]) (by rw [hclen2, hklen2]) (by rw [hklen2]; simp)
    (by rw [hklen2]; simp [resolved_oos_sizes]) (by rw [hklen2]; simp)
    (by rw [hklen2]; simp) (by rw [hklen2]; simp)
  rw [hzip, hmn, hun]

theorem zip_new_slots (t : List Row) :
    ∀ (cfgs : List CellTypeConfigNotOptional) (ns : List String),
      cfgs.map (fun c => c.name) = ns →
      ((cfgs.zip ns).map
          (fun p => Slot.mk p.1.name (table_points t p.2) (config_to_request p.1))) =
        cfgs.map (fun c => Slot.mk c.name (table_points t c.name) (config_to_request c)) := by
  intro cfgs
  induction cfgs with
  | nil => intro ns _; rfl
  | cons c cs ih =>
    intro ns h
    cases ns with
    | nil => simp at h
    | cons n ns2 =>
      simp only [List.map_cons, List.cons.injEq] at h
      simp only [List.zip_cons_cons, List.map_cons]
      rw [← h.1, ih ns2 h.2]

/-- C4: exporting a session's points with `save_points_to_df` and re-importing
the table with `read_points_from_df` into a fresh session with no pre-existing
slots produces, for each distinct `cell_type` value of the table, exactly one
slot named with that value and holding exactly that cell type's exported
coordinates in table order (and no other slots). -/
theorem c4_round_trip (slots : List Slot) (oos : Rat) :
    ∃ out, read_points_from_df [] oos (save_points_to_df slots) = Except.ok out ∧
      (out.map (fun sl => sl.name)).Nodup ∧
      (∀ sl ∈ out, sl.name ∈ (save_points_to_df slots).map (fun r => r.1) ∧
        sl.data = table_points (save_points_to_df slots) sl.name) ∧
      (∀ n ∈ (save_points_to_df slots).map (fun r => r.1), ∃ sl ∈ out, sl.name = n) := by
  generalize save_points_to_df slots = t
  obtain ⟨cfgout, hproc, hnames⟩ :=
    process_name_only (np_unique_nodup (t.map (fun r => r.1)))
  have hlen : cfgout.length = (np_unique (t.map (fun r => r.1))).length := by
    have := congrArg List.length hnames
    simpa using this
  refine ⟨cfgout.map
    (fun c => Slot.mk c.name (table_points t c.name) (config_to_request c)),
    ?_, ?_, ?_, ?_⟩
  · unfold read_points_from_df
    have hfilt : (np_unique (t.map (fun r => r.1))).filter
        (fun n => !(empty_layer_named [] n)) = np_unique (t.map (fun r => r.1)) :=
      List.filter_eq_self.mpr (fun a _ => rfl)
    simp only [List.map_nil, List.nil_append, hfilt, hproc, hlen, Nat.sub_self,
      List.drop_zero]
    rw [zip_new_slots t cfgout (np_unique (t.map (fun r => r.1))) hnames]
  · rw [List.map_map]
    rw [show ((fun sl : Slot => sl.name) ∘
        (fun c => Slot.mk c.name (table_points t c.name) (config_to_request c))) =
        fun c : CellTypeConfigNotOptional => c.name from rfl]
    rw [hnames]
    exact np_unique_nodup _
  · intro sl hsl
    obtain ⟨c, hcm, hcs⟩ := List.mem_map.mp hsl
    constructor
    · rw [← hcs]
      have hmem : c.name ∈ cfgout.map (fun c => c.name) := List.mem_map_of_mem _ hcm
      rw [hnames] at hmem
      exact np_unique_mem.mp hmem
    · rw [← hcs]
  · intro n hn
    have hn2 : n ∈ np_unique (t.map (fun r => r.1)) := np_unique_mem.mpr hn
    rw [← hnames] at hn2
    obtain ⟨c, hcm, hcn⟩ := List.mem_map.mp hn2
    exact ⟨Slot.mk c.name (table_points t c.name) (config_to_request c),
      List.mem_map_of_mem _ hcm, hcn⟩

/-- C4 witness: a two-slot session with three points, exported and
re-imported into a fresh session. -/
theorem c4_witness :
    ∃ out, read_points_from_df [] 2
        (save_points_to_df
          [Slot.mk ("b") [((1 : Int), 2, 3), ((4 : Int), 5, 6)] {},
           Slot.mk ("a") [((7 : Int), 8, 9)] {}]) = Except.ok out ∧
      (out.map (fun sl => sl.name)).Nodup ∧
      (∀ sl ∈ out, sl.name ∈ (save_points_to_df
          [Slot.mk ("b") [((1 : Int), 2, 3), ((4 : Int), 5, 6)] {},
           Slot.mk ("a") [((7 : Int), 8, 9)] {}]).map (fun r => r.1) ∧
        sl.data = table_points (save_points_to_df
          [Slot.mk ("b") [((1 : Int), 2, 3), ((4 : Int), 5, 6)] {},
           Slot.mk ("a") [((7 : Int), 8, 9)] {}]) sl.name) ∧
      (∀ n ∈ (save_points_to_df
          [Slot.mk ("b") [((1 : Int), 2, 3), ((4 : Int), 5, 6)] {},
           Slot.mk ("a") [((7 : Int), 8, 9)] {}]).map (fun r => r.1),
        ∃ sl ∈ out, sl.name = n) :=
  c4_round_trip
    [Slot.mk ("b") [((1 : Int), 2, 3), ((4 : Int), 5, 6)] {},
     Slot.mk ("a") [((7 : Int), 8, 9)] {}] 2

/-! ## Lemmas: `_reconstruct_selected` (C6) -/

theorem getD_map_of_lt {α β : Type} (f : α → β) (l : List α) (i : Nat) (d : β)
    (d2 : α) (h : i < l.length) : (l.map f).getD i d = f (l.getD i d2) := by
  rw [List.getD_eq_getElem?_getD, List.getElem?_map, List.getD_eq_getElem?_getD,
    List.getElem?_eq_getElem h]
  rfl

theorem getD_mem_of_lt {α : Type} (l : List α) (i : Nat) (d : α) (h : i < l.length) :
    l.getD i d ∈ l := by
  rw [List.getD_eq_getElem?_getD, List.getElem?_eq_getElem h]
  exact List.getElem_mem h

theorem cuboid_spec {v : Vol} (h : cuboid v = true) :
    ∀ p ∈ v, p.length = (vol_shape v).2.1 ∧ ∀ r ∈ p, r.length = (vol_shape v).2.2 := by
  unfold cuboid at h
  unfold vol_shape
  simp only [List.all_eq_true, Bool.and_eq_true, beq_iff_eq] at h
  intro p hp
  exact ⟨(h p hp).1, fun r hr => (h p hp).2 r hr⟩

theorem np_axis_index_valid {α : Type} (l : List α) (i : Int) (h0 : 0 ≤ i)
    (hl : i < (l.length : Int)) (d : α) : np_axis_index l i = some (l.getD i.toNat d) := by
  unfold np_axis_index
  rw [if_pos ⟨h0, hl⟩]
  have hlt : i.toNat < l.length := by omega
  rw [List.getElem?_eq_getElem hlt, List.getD_eq_getElem?_getD,
    List.getElem?_eq_getElem hlt]
  rfl

theorem coord_in_range_spec {shape : Nat × Nat × Nat} {c : Coord}
    (h : coord_in_range shape c = true) :
    0 ≤ c.1 ∧ c.1 < (shape.1 : Int) ∧ 0 ≤ c.2.1 ∧ c.2.1 < (shape.2.1 : Int) ∧
      0 ≤ c.2.2 ∧ c.2.2 < (shape.2.2 : Int) := by
  unfold coord_in_range at h
  simp only [Bool.and_eq_true, decide_eq_true_eq] at h
  exact ⟨h.1.1.1.1.1, h.1.1.1.1.2, h.1.1.1.2, h.1.1.2, h.1.2, h.2⟩

theorem np_index_valid {v : Vol} {c : Coord} (hcb : cuboid v = true)
    (hr : coord_in_range (vol_shape v) c = true) :
    np_index v c = some (vol_at v c.1.toNat c.2.1.toNat c.2.2.toNat) := by
  obtain ⟨h1, h2, h3, h4, h5, h6⟩ := coord_in_range_spec hr
  have hvlen : ((vol_shape v).1 : Int) = (v.length : Int) := rfl
  have e1 : np_axis_index v c.1 = some (v.getD c.1.toNat []) :=
    np_axis_index_valid v c.1 h1 (by rw [← hvlen]; exact h2) []
  have hplane : (v.getD c.1.toNat []) ∈ v := by
    apply getD_mem_of_lt
    have := h2
    rw [hvlen] at this
    omega
  have hplen := (cuboid_spec hcb _ hplane).1
  have e2 : np_axis_index (v.getD c.1.toNat []) c.2.1 =
      some ((v.getD c.1.toNat []).getD c.2.1.toNat []) :=
    np_axis_index_valid _ c.2.1 h3 (by rw [hplen]; exact h4) []
  have hrow : (v.getD c.1.toNat []).getD c.2.1.toNat [] ∈ v.getD c.1.toNat [] := by
    apply getD_mem_of_lt
    rw [hplen]
    omega
  have hrlen := (cuboid_spec hcb _ hplane).2 _ hrow
  have e3 : np_axis_index ((v.getD c.1.toNat []).getD c.2.1.toNat []) c.2.2 =
      some (((v.getD c.1.toNat []).getD c.2.1.toNat []).getD c.2.2.toNat 0) :=
    np_axis_index_valid _ c.2.2 h5 (by rw [hrlen]; exact h6) 0
  unfold np_index
  simp only [e1, e2, e3]
  rfl

theorem index_all_some {v : Vol} : ∀ {cl : List Coord},
    (∀ c ∈ cl, (np_index v c).isSome = true) →
    ∃ ls, index_all v cl = some ls ∧
      (∀ x, x ∈ ls ↔ ∃ c ∈ cl, np_index v c = some x) := by
  intro cl
  induction cl with
  | nil => intro _; exact ⟨[], rfl, by simp⟩
  | cons c rest ih =>
    intro h
    have hc := h c (by simp)
    cases hnp : np_index v c with
    | none => rw [hnp] at hc; simp at hc
    | some x0 =>
      obtain ⟨ls, hls, hmem⟩ := ih (fun d hd => h d (by simp [hd]))
      refine ⟨x0 :: ls, ?_, ?_⟩
      · unfold index_all
        rw [hnp, hls]
      · intro x
        simp only [List.mem_cons, hmem]
        constructor
        · rintro (rfl | ⟨d, hd, hxd⟩)
          · exact ⟨c, by simp, hnp⟩
          · exact ⟨d, by simp [hd], hxd⟩
        · rintro ⟨d, hd, hxd⟩
          rcases hd with rfl | hd2
          · left
            rw [hnp] at hxd
            exact (Option.some.inj hxd).symm
          · right
            exact ⟨d, hd2, hxd⟩

theorem labels_filter_mem {labels : List Nat} {x : Nat} :
    x ∈ (if labels.contains 0 then labels.filter (fun y => !(y == 0)) else labels) ↔
      x ∈ labels ∧ x ≠ 0 := by
  by_cases h : labels.contains 0 = true
  · rw [if_pos h, List.mem_filter]
    simp
  · rw [if_neg h]
    have h0 : (0 : Nat) ∉ labels := fun hc => h (List.elem_iff.mpr hc)
    exact ⟨fun hx => ⟨hx, fun he => h0 (he ▸ hx)⟩, And.left⟩

/-- C6 (amended): on a non-empty point list over a well-formed label volume,
where every point not dropped by the (strictly-greater) bounds filter is a
valid non-negative index, `_reconstruct_selected` returns a real mask whose
value at each voxel is 255 when that voxel's label is non-zero and touched by
some surviving point and 0 otherwise. -/
theorem c6_reconstruct_mask (coords : List Coord) (v : Vol) (hne : coords ≠ [])
    (hcb : cuboid v = true)
    (hval : ∀ c ∈ coords, coord_out_of_bounds (vol_shape v) c = false →
      coord_in_range (vol_shape v) c = true) :
    ∃ mask, reconstruct_selected_core coords v = Except.ok (some mask) ∧
      ∀ i j k, i < (vol_shape v).1 → j < (vol_shape v).2.1 → k < (vol_shape v).2.2 →
        (vol_at mask i j k = 255 ∨ vol_at mask i j k = 0) ∧
          (vol_at mask i j k = 255 ↔ vol_at v i j k ≠ 0 ∧
            ∃ c ∈ coords, coord_out_of_bounds (vol_shape v) c = false ∧
              np_index v c = some (vol_at v i j k)) := by
  have hmem2 : ∀ c, c ∈ (if coords.any (coord_out_of_bounds (vol_shape v)) then
      coords.filter (fun c => !(coord_out_of_bounds (vol_shape v) c)) else coords) ↔
      c ∈ coords ∧ coord_out_of_bounds (vol_shape v) c = false := by
    intro c
    by_cases hany : coords.any (coord_out_of_bounds (vol_shape v)) = true
    · rw [if_pos hany, List.mem_filter]
      simp
    · rw [if_neg hany]
      have hall := List.any_eq_false.mp (Bool.eq_false_iff.mpr hany)
      exact ⟨fun hc => ⟨hc, Bool.eq_false_iff.mpr (hall c hc)⟩, And.left⟩
  have hsome : ∀ c ∈ (if coords.any (coord_out_of_bounds (vol_shape v)) then
      coords.filter (fun c => !(coord_out_of_bounds (vol_shape v) c)) else coords),
      (np_index v c).isSome = true := by
    intro c hc
    obtain ⟨hc1, hc2⟩ := (hmem2 c).mp hc
    rw [np_index_valid hcb (hval c hc1 hc2)]
    rfl
  obtain ⟨ls, hls, hlmem⟩ := index_all_some hsome
  refine ⟨v.map (fun plane => plane.map (fun row => row.map
    (fun x => if (if ls.contains 0 then ls.filter (fun y => !(y == 0)) else ls).contains x
      then 255 else 0))), ?_, ?_⟩
  · unfold reconstruct_selected_core
    rw [if_neg (by simpa [List.isEmpty_iff] using hne)]
    simp only [hls]
  · intro i j k hi hj hk
    have hvi : i < v.length := hi
    have hplane : v.getD i [] ∈ v := getD_mem_of_lt _ _ _ hvi
    have hpj : j < (v.getD i []).length := by
      rw [(cuboid_spec hcb _ hplane).1]
      exact hj
    have hrow : (v.getD i []).getD j [] ∈ v.getD i [] := getD_mem_of_lt _ _ _ hpj
    have hrk : k < ((v.getD i []).getD j []).length := by
      rw [(cuboid_spec hcb _ hplane).2 _ hrow]
      exact hk
    have hmask : vol_at (v.map (fun plane => plane.map (fun row => row.map
        (fun x => if (if ls.contains 0 then ls.filter (fun y => !(y == 0)) else ls).contains x
          then 255 else 0)))) i j k =
        (if (if ls.contains 0 then ls.filter (fun y => !(y == 0)) else ls).contains
            (vol_at v i j k) then 255 else 0) := by
      unfold vol_at
      rw [getD_map_of_lt _ _ _ _ [] hvi, getD_map_of_lt _ _ _ _ [] hpj,
        getD_map_of_lt _ _ _ _ 0 hrk]
    rw [hmask]
    by_cases hcont : (if ls.contains 0 then ls.filter (fun y => !(y == 0)) else ls).contains
        (vol_at v i j k) = true
    · rw [if_pos hcont]
      refine ⟨Or.inl rfl, ?_, ?_⟩
      · intro _
        have hmm := labels_filter_mem.mp (List.elem_iff.mp hcont)
        refine ⟨hmm.2, ?_⟩
        obtain ⟨c, hc, hnp⟩ := (hlmem _).mp hmm.1
        obtain ⟨hc1, hc2⟩ := (hmem2 c).mp hc
        exact ⟨c, hc1, hc2, hnp⟩
      · intro _
        rfl
    · rw [if_neg hcont]
      refine ⟨Or.inr rfl, ?_⟩
      constructor
      · intro h0
        omega
      · rintro ⟨hnz, c, hc1, hc2, hnp⟩
        exfalso
        apply hcont
        apply List.elem_iff.mpr
        apply labels_filter_mem.mpr
        refine ⟨?_, hnz⟩
        exact (hlmem _).mpr ⟨c, (hmem2 c).mpr ⟨hc1, hc2⟩, hnp⟩

/-- C6 counterexample: a single point landing on background (label 0) is a
case of "zero points survive", yet `_reconstruct_selected` returns a real
`add_image` payload with an all-zero mask, not the distinct empty result
(the empty dict is returned only when the input point list is empty). -/
theorem c6_counterexample :
    reconstruct_selected_core [((0 : Int), 0, 0)] [[[0]]] =
        Except.ok (some [[[0]]]) ∧
      Except.ok (some [[[0]]]) ≠ (Except.ok none : Except String (Option Vol)) :=
  ⟨by decide, by decide⟩

/-- C6 witness: two points, one dropped by the bounds filter, one hitting
label 7. -/
theorem c6_witness :
    ([((0 : Int), 0, 0), ((5 : Int), 0, 0)] : List Coord) ≠ [] ∧
      cuboid [[[7, 0]]] = true ∧
      (∀ c ∈ ([((0 : Int), 0, 0), ((5 : Int), 0, 0)] : List Coord),
        coord_out_of_bounds (vol_shape [[[7, 0]]]) c = false →
          coord_in_range (vol_shape [[[7, 0]]]) c = true) ∧
      (∃ mask, reconstruct_selected_core [((0 : Int), 0, 0), ((5 : Int), 0, 0)]
          [[[7, 0]]] = Except.ok (some mask) ∧
        ∀ i j k, i < (vol_shape [[[7, 0]]]).1 → j < (vol_shape [[[7, 0]]]).2.1 →
          k < (vol_shape [[[7, 0]]]).2.2 →
          (vol_at mask i j k = 255 ∨ vol_at mask i j k = 0) ∧
            (vol_at mask i j k = 255 ↔ vol_at [[[7, 0]]] i j k ≠ 0 ∧
              ∃ c ∈ ([((0 : Int), 0, 0), ((5 : Int), 0, 0)] : List Coord),
                coord_out_of_bounds (vol_shape [[[7, 0]]]) c = false ∧
                  np_index [[[7, 0]]] c = some (vol_at [[[7, 0]]] i j k))) :=
  ⟨by decide, by decide, by decide,
    c6_reconstruct_mask [((0 : Int), 0, 0), ((5 : Int), 0, 0)] [[[7, 0]]]
      (by decide) (by decide) (by decide)⟩

/-! ## Lemmas: `split_on_shapes` (C7) -/

theorem split_points_missing (hit : Coord → Option Nat) (slice : Int)
    (layer : PointsLayer) : ∀ ps : List Coord,
    (∃ p ∈ ps, hit (hit_coord layer slice p) = none) →
    ∃ q ∈ ps, split_points hit slice layer ps =
      Except.error (SplitErr.missingShape layer.name q) := by
  intro ps
  induction ps with
  | nil => rintro ⟨p, hp, _⟩; simp at hp
  | cons p rest ih =>
    rintro ⟨q, hq, hqn⟩
    by_cases hp : hit (hit_coord layer slice p) = none
    · refine ⟨p, by simp, ?_⟩
      unfold split_points
      rw [hp]
    · have hq2 : q ∈ rest := by
        rcases List.mem_cons.mp hq with rfl | h2
        · exact absurd hqn hp
        · exact h2
      obtain ⟨q2, hq2m, hq2e⟩ := ih ⟨q, hq2, hqn⟩
      refine ⟨q2, by simp [hq2m], ?_⟩
      unfold split_points
      cases hph : hit (hit_coord layer slice p) with
      | none => exact absurd hph hp
      | some idx => simp only [hq2e]

theorem split_points_error (hit : Coord → Option Nat) (slice : Int)
    (layer : PointsLayer) : ∀ (ps : List Coord) (e : SplitErr),
    split_points hit slice layer ps = Except.error e →
    ∃ q ∈ ps, e = SplitErr.missingShape layer.name q := by
  intro ps
  induction ps with
  | nil => intro e h; exact absurd h (by simp [split_points])
  | cons p rest ih =>
    intro e h
    unfold split_points at h
    cases hph : hit (hit_coord layer slice p) with
    | none =>
      rw [hph] at h
      simp only [Except.error.injEq] at h
      exact ⟨p, by simp, h.symm⟩
    | some idx =>
      rw [hph] at h
      cases hrec : split_points hit slice layer rest with
      | error e2 =>
        rw [hrec] at h
        simp only [Except.error.injEq] at h
        obtain ⟨q, hq, he⟩ := ih e2 hrec
        exact ⟨q, by simp [hq], h ▸ he⟩
      | ok rows => rw [hrec] at h; simp at h

theorem split_points_ok (hit : Coord → Option Nat) (slice : Int)
    (layer : PointsLayer) : ∀ (ps : List Coord) (rows : List SRow),
    split_points hit slice layer ps = Except.ok rows →
    (∀ p ∈ ps, (hit (hit_coord layer slice p)).isSome = true) ∧
      rows.length = ps.length := by
  intro ps
  induction ps with
  | nil =>
    intro rows h
    have h2 : ([] : List SRow) = rows := Except.ok.inj h
    exact ⟨by simp, by rw [← h2]; rfl⟩
  | cons p rest ih =>
    intro rows h
    unfold split_points at h
    cases hph : hit (hit_coord layer slice p) with
    | none => rw [hph] at h; simp at h
    | some idx =>
      rw [hph] at h
      cases hrec : split_points hit slice layer rest with
      | error e => rw [hrec] at h; simp at h
      | ok rows2 =>
        rw [hrec] at h
        simp only [Except.ok.injEq] at h
        obtain ⟨hall, hlen⟩ := ih rows2 hrec
        constructor
        · intro q hq
          rcases List.mem_cons.mp hq with rfl | hq2
          · rw [hph]; rfl
          · exact hall q hq2
        · rw [← h]
          simp [hlen]

theorem split_layers_missing (hit : Coord → Option Nat) (slice : Int) :
    ∀ layers : List PointsLayer,
    (∃ l ∈ layers, ∃ p ∈ l.data, hit (hit_coord l slice p) = none) →
    ∃ l ∈ layers, ∃ q ∈ l.data, split_layers hit slice layers =
      Except.error (SplitErr.missingShape l.name q) := by
  intro layers
  induction layers with
  | nil => rintro ⟨l, hl, _⟩; simp at hl
  | cons l rest ih =>
    rintro ⟨l2, hl2, p, hp, hpn⟩
    cases hsp : split_points hit slice l l.data with
    | error e =>
      obtain ⟨q, hq, he⟩ := split_points_error hit slice l l.data e hsp
      refine ⟨l, by simp, q, hq, ?_⟩
      unfold split_layers
      simp only [hsp, he]
    | ok rows =>
      rcases List.mem_cons.mp hl2 with rfl | hl2r
      · exfalso
        have := (split_points_ok hit slice l2 l2.data rows hsp).1 p hp
        rw [hpn] at this
        simp at this
      · obtain ⟨l3, hl3, q, hq, he⟩ := ih ⟨l2, hl2r, p, hp, hpn⟩
        refine ⟨l3, by simp [hl3], q, hq, ?_⟩
        unfold split_layers
        simp only [hsp, he]

theorem split_layers_ok (hit : Coord → Option Nat) (slice : Int) :
    ∀ (layers : List PointsLayer) (rows : List SRow),
    split_layers hit slice layers = Except.ok rows →
    (∀ l ∈ layers, ∀ p ∈ l.data, (hit (hit_coord l slice p)).isSome = true) ∧
      rows.length = (layers.map (fun l => l.data.length)).sum := by
  intro layers
  induction layers with
  | nil =>
    intro rows h
    have h2 : ([] : List SRow) = rows := Except.ok.inj h
    exact ⟨by simp, by rw [← h2]; rfl⟩
  | cons l rest ih =>
    intro rows h
    unfold split_layers at h
    cases hsp : split_points hit slice l l.data with
    | error e => rw [hsp] at h; simp at h
    | ok rows1 =>
      rw [hsp] at h
      cases hrec : split_layers hit slice rest with
      | error e => rw [hrec] at h; simp at h
      | ok rows2 =>
        rw [hrec] at h
        simp only [Except.ok.injEq] at h
        obtain ⟨hall1, hlen1⟩ := split_points_ok hit slice l l.data rows1 hsp
        obtain ⟨hall2, hlen2⟩ := ih rows2 hrec
        constructor
        · intro l2 hl2
          rcases List.mem_cons.mp hl2 with rfl | hl2r
          · exact hall1
          · exact hall2 l2 hl2r
        · rw [← h]
          simp [hlen1, hlen2]

/-- C7: if any point of any input layer is contained in no polygon (the hit
test returns nothing), `split_on_shapes` aborts the whole operation with a
`missingShape` report naming a layer and offending point and returns no
table; conversely a table is returned only when every point matched some
polygon and at least one point exists. -/
theorem c7_split_abort (point_layers : List PointsLayer) (shapes : ShapesLayer) :
    (shapes.data ≠ [] →
      (∃ l ∈ point_layers, ∃ p ∈ l.data,
        shapes.hit_test (hit_coord l (shapes_slice shapes) p) = none) →
      ∃ l ∈ point_layers, ∃ q ∈ l.data,
        split_on_shapes point_layers shapes =
          Except.error (SplitErr.missingShape l.name q)) ∧
    (∀ rows, split_on_shapes point_layers shapes = Except.ok rows →
      (∀ l ∈ point_layers, ∀ p ∈ l.data,
        (shapes.hit_test (hit_coord l (shapes_slice shapes) p)).isSome = true) ∧
      (∃ l ∈ point_layers, l.data ≠ [])) := by
  constructor
  · intro hne hex
    obtain ⟨l, hl, q, hq, he⟩ :=
      split_layers_missing shapes.hit_test (shapes_slice shapes) point_layers hex
    refine ⟨l, hl, q, hq, ?_⟩
    unfold split_on_shapes
    cases hd : shapes.data with
    | nil => exact absurd hd hne
    | cons poly0 polys => simp only [he]
  · intro rows hrows
    unfold split_on_shapes at hrows
    cases hd : shapes.data with
    | nil => rw [hd] at hrows; simp at hrows
    | cons poly0 polys =>
      rw [hd] at hrows
      cases hsl : split_layers shapes.hit_test (shapes_slice shapes) point_layers with
      | error e =>
        simp only [hsl] at hrows
        simp at hrows
      | ok rows2 =>
        simp only [hsl] at hrows
        obtain ⟨hall, hlen⟩ :=
          split_layers_ok shapes.hit_test (shapes_slice shapes) point_layers rows2 hsl
        refine ⟨hall, ?_⟩
        by_cases hemp : rows2.isEmpty = true
        · rw [if_pos hemp] at hrows
          simp at hrows
        · by_contra hno
          push_neg at hno
          have hz : ∀ l ∈ point_layers, l.data.length = 0 := by
            intro l hl
            rw [hno l hl]
            rfl
          apply hemp
          rw [List.isEmpty_iff, ← List.length_eq_zero, hlen]
          exact sum_map_zero hz

/-- C7 witness: a point in no polygon makes the whole split abort with a
`missingShape` report (first conjunct), and a successful run certifies that
every point matched and at least one point existed (second conjunct). -/
theorem c7_witness :
    (∃ l ∈ [PointsLayer.mk ("cells") [((0 : Int), 1, 2)] id], ∃ q ∈ l.data,
      split_on_shapes [PointsLayer.mk ("cells") [((0 : Int), 1, 2)] id]
          (ShapesLayer.mk [[((0 : Int), 0, 0)]] (fun _ => none)) =
        Except.error (SplitErr.missingShape l.name q)) ∧
    ((∀ l ∈ [PointsLayer.mk ("cells") [((0 : Int), 1, 2)] id], ∀ p ∈ l.data,
        ((ShapesLayer.mk [[((0 : Int), 0, 0)]] (fun _ => some 0)).hit_test
          (hit_coord l (shapes_slice
            (ShapesLayer.mk [[((0 : Int), 0, 0)]] (fun _ => some 0))) p)).isSome =
          true) ∧
      (∃ l ∈ [PointsLayer.mk ("cells") [((0 : Int), 1, 2)] id], l.data ≠ [])) :=
  ⟨(c7_split_abort [PointsLayer.mk ("cells") [((0 : Int), 1, 2)] id]
      (ShapesLayer.mk [[((0 : Int), 0, 0)]] (fun _ => none))).1
      (by decide) (by decide),
    (c7_split_abort [PointsLayer.mk ("cells") [((0 : Int), 1, 2)] id]
      (ShapesLayer.mk [[((0 : Int), 0, 0)]] (fun _ => some 0))).2
      [SRow.mk 0 1 2 ("cells") 0] (by decide)⟩

end N3C
